import Mathlib

/-!
Verification of the route resolution engine of the gapp repository.

The engine exists in two forms in the source:
  * a client-side trie matcher (`Router` in the TypeScript client: `find`,
    `findParams`, `addRouteToTree`, `url`), and
  * a server-side linear matcher (`MatchRoute`, `MatchPattern`, `SplitPath`,
    `SubstituteParams`, `HasUnsubstitutedParam` in server/preload.go).

This file gives a shallow embedding of both and proves/refutes the frozen
claims about them.  Machine strings are modelled by Lean `String` (a list of
characters); JavaScript objects used as string-keyed maps are modelled by
association lists where assignment replaces in place or appends at the end
(matching JS property-insertion order); Go maps are modelled the same way
(Go map iteration order is unspecified; the modelled claims never depend on
iterating a map with more than one key, except `SubstituteParams`, where the
fold order over route parameters is made explicit by the list order).
Fallible operations return `Option` or `Except`.
-/

namespace Gapp

/-! ### Generic association lists (JS objects / Go maps as string-keyed maps) -/

/-- Lookup in an association list; models `obj[key]` / `m[key]` returning
`undefined` (here `none`) when the key is absent. -/
def lookupAssoc {α : Type u} : List (String × α) → String → Option α
  | [], _ => none
  | (k, v) :: rest, key => if k = key then some v else lookupAssoc rest key

/-- Assignment `obj[key] = v`: replaces the value in place when the key
exists, otherwise appends the new entry at the end (JS property order). -/
def setAssoc {α : Type u} : List (String × α) → String → α → List (String × α)
  | [], key, v => [(key, v)]
  | (k, w) :: rest, key, v =>
    if k = key then (key, v) :: rest else (k, w) :: setAssoc rest key v

/-! ### Splitting paths into segments

`splitCharsOnSlash` is JavaScript `s.split("/")` and Go `strings.Split(s, "/")`
(for a non-empty separator the two agree): it keeps empty fields, and the
split of the empty string is `[""]`. -/

def splitCharsOnSlash : List Char → List (List Char)
  | [] => [[]]
  | c :: rest =>
    if c = '/' then [] :: splitCharsOnSlash rest
    else
      match splitCharsOnSlash rest with
      | [] => [[c]]
      | s :: ss => (c :: s) :: ss

/-- JavaScript `path.split("/")`. -/
def jsSplitSlash (s : String) : List String :=
  (splitCharsOnSlash s.data).map String.mk

/-- JavaScript `path.split("/").filter(Boolean)`: split on `/` and drop the
empty segments. -/
def splitFilter (s : String) : List String :=
  (jsSplitSlash s).filter (fun seg => seg != "")

/-- Go `strings.Trim(path, "/")`: remove every leading and trailing slash. -/
def goTrimSlashes (s : String) : String :=
  String.mk (((s.data.dropWhile (fun c => c = '/')).reverse.dropWhile
    (fun c => c = '/')).reverse)

/-- Go `SplitPath` (server/preload.go): trim leading/trailing slashes, return
`[]` for the empty remainder, else split on `/` (interior empty segments are
kept, unlike the client-side `filter(Boolean)`). -/
def SplitPath (path : String) : List String :=
  let p := goTrimSlashes path
  if p = "" then [] else (splitCharsOnSlash p.data).map String.mk

/-! ### Segment shape tests and parameter names -/

/-- JS `part.startsWith(":")` / Go `strings.HasPrefix(pp, ":")`. -/
def startsWithColon (s : String) : Bool :=
  match s.data with
  | [] => false
  | c :: _ => c = ':'

/-- JS `part.endsWith("?")` / Go `strings.HasSuffix(pp, "?")`. -/
def endsWithQm (s : String) : Bool :=
  match s.data.getLast? with
  | some c => c = '?'
  | none => false

/-- Client-side parameter name of a dynamic segment:
`isOptional ? part.slice(1, -1) : part.slice(1)`. -/
def tsParamName (s : String) : String :=
  if endsWithQm s then String.mk ((s.data.drop 1).dropLast)
  else String.mk (s.data.drop 1)

/-- Go `strings.TrimPrefix(pp, ":")`. -/
def goTrimColon (s : String) : String :=
  match s.data with
  | ':' :: rest => String.mk rest
  | _ => s

/-- Go `strings.TrimSuffix(s, "?")`. -/
def goTrimQm (s : String) : String :=
  if endsWithQm s then String.mk s.data.dropLast else s

/-- Server-side parameter name:
`strings.TrimSuffix(strings.TrimPrefix(pp, ":"), "?")`. -/
def goParamName (s : String) : String := goTrimQm (goTrimColon s)

/-! ### Server-side linear matcher (server/preload.go) -/

/-- RpcSpec: an RPC to preload, with optional parameter mappings.  A Go
`nil` map is `none`; a non-nil map is `some` association list. -/
structure RpcSpec where
  method : String
  params : Option (List (String × String))
deriving DecidableEq

/-- RouteSpec: preload configuration for a route pattern. -/
structure RouteSpec where
  pattern : String
  rpcs : List RpcSpec
deriving DecidableEq

/-- The loop body of Go `MatchPattern`: walk the pattern parts, consuming
path parts; `pi < len(pathParts)` is modelled by the consumed-suffix list
being non-empty.  The final `pi != len(pathParts)` check is the `[]` case. -/
def matchPatternGo : List String → List String → List (String × String) →
    Option (List (String × String))
  | [], pathParts, params => if pathParts.isEmpty then some params else none
  | pp :: rest, pathParts, params =>
    if startsWithColon pp then
      match pathParts with
      | seg :: segsRest =>
        matchPatternGo rest segsRest (setAssoc params (goParamName pp) seg)
      | [] =>
        if endsWithQm pp then matchPatternGo rest [] params else none
    else
      match pathParts with
      | seg :: segsRest =>
        if seg = pp then matchPatternGo rest segsRest params else none
      | [] => none

/-- Go `MatchPattern(pattern, path)`: returns the extracted parameters on a
match (`(map, true)` in Go), `none` on failure (`(nil, false)`). -/
def MatchPattern (pattern path : String) : Option (List (String × String)) :=
  matchPatternGo (SplitPath pattern) (SplitPath path) []

/-- Go `MatchRoute(routes, path)`: first matching route in list order,
together with its extracted parameters. -/
def MatchRoute : List RouteSpec → String → Option (RouteSpec × List (String × String))
  | [], _ => none
  | route :: rest, path =>
    match MatchPattern route.pattern path with
    | some params => some (route, params)
    | none => MatchRoute rest path

/-! ### Go strings.ReplaceAll and parameter substitution -/

/-- If `pat` starts the list `s`, return the remainder after it. -/
def stripStart : List Char → List Char → Option (List Char)
  | [], rest => some rest
  | _ :: _, [] => none
  | p :: ps, c :: cs => if p = c then stripStart ps cs else none

/-- Left-to-right non-overlapping replacement, with fuel for termination;
fuel at least the length of the scanned list makes the fuel irrelevant
because each step consumes at least one character when `pat` is non-empty. -/
def replaceAllGo (pat repl : List Char) : Nat → List Char → List Char
  | _, [] => []
  | 0, s => s
  | fuel + 1, c :: cs =>
    match stripStart pat (c :: cs) with
    | some rest => repl ++ replaceAllGo pat repl fuel rest
    | none => c :: replaceAllGo pat repl fuel cs

/-- Go `strings.ReplaceAll(s, old, new)` for a non-empty `old`.  (The engine
only ever calls it with `old` of the form `":" + name`, which is non-empty;
the empty-`old` interleaving behaviour of Go is not modelled.) -/
def goReplaceAll (s old new : String) : String :=
  if old = "" then s
  else String.mk (replaceAllGo old.data new.data s.data.length s.data)

/-- Go `SubstituteParams(rpcParams, routeParams)`: `nil` in, `nil` out;
otherwise every occurrence of `":" + paramName` in every declared value is
replaced by the parameter value.  Go iterates `routeParams` in unspecified
map order; here the fold follows the list order. -/
def SubstituteParams (rpcParams : Option (List (String × String)))
    (routeParams : List (String × String)) : Option (List (String × String)) :=
  match rpcParams with
  | none => none
  | some l =>
    some (l.map (fun kv =>
      (kv.1, routeParams.foldl (fun v np => goReplaceAll v (":" ++ np.1) np.2) kv.2)))

/-- Go `HasUnsubstitutedParam(params)`: true when any value still contains a
`:` character (ranging over a `nil` map visits nothing). -/
def HasUnsubstitutedParam (params : Option (List (String × String))) : Bool :=
  match params with
  | none => false
  | some l => l.any (fun kv => kv.2.data.contains ':')

/-! ### Client-side router (Router class in the TypeScript client)

Extracted parameters are JS objects whose values may be `undefined`
(a trailing optional parameter not present in the path), hence
`Option String` values; an entry `(k, none)` models a key that is present
with value `undefined`, which is distinct from the key being absent. -/

/-- Extracted route parameters. -/
abbrev Params := List (String × Option String)

/-- A registered route: a path pattern and a metadata factory.  Metadata is
opaque to the engine (type parameter `M`). -/
structure Route (M : Type u) where
  path : String
  factory : Params → M

/-- RouteTree node.  JS stores the terminal `Route` object itself and
compares routes by object identity; identity is modelled by the route's
index in the registration list, so `terminal` is an `Option Nat`.  The
`statics` map is keyed by the literal segment; `dyn` is the at-most-one
dynamic child `(key, optional, child)` where `key` keeps its leading colon
(JS normalises `":id?"` to `":id"` but keeps `":id"` as is). -/
inductive RouteTree : Type where
  | mk (terminal : Option Nat) (statics : List (String × RouteTree))
       (dyn : Option (String × Bool × RouteTree))

def RouteTree.terminal : RouteTree → Option Nat
  | .mk t _ _ => t

def RouteTree.statics : RouteTree → List (String × RouteTree)
  | .mk _ s _ => s

def RouteTree.dyn : RouteTree → Option (String × Bool × RouteTree)
  | .mk _ _ d => d

def RouteTree.withTerminal : RouteTree → Option Nat → RouteTree
  | .mk _ s d, t => .mk t s d

/-- A fresh node `{ node: null, static: {}, dynamic: null }`. -/
def emptyTree : RouteTree := .mk none [] none

/-- Normalised key of a dynamic segment for conflict comparison:
`isOptional ? part.slice(0, -1) : part` (the leading colon is kept). -/
def dynKey (part : String) : String :=
  if endsWithQm part then String.mk part.data.dropLast else part

/-- The optional-segment terminal rule of `addRouteToTree`:
`if (isOptional && !current.node) current.node = route`. -/
def optTerminal (idx : Nat) (part : String) (t : RouteTree) : Option Nat :=
  if endsWithQm part ∧ t.terminal = none then some idx else t.terminal

/-- The body of `addRouteToTree`, walking the filtered parts of the route's
path.  `idx` is the index (identity) of the route being inserted.  Errors
reproduce the construction-conflict throws of the source. -/
def addRouteGo (idx : Nat) : List String → RouteTree → Except String RouteTree
  | [], t =>
    match t.terminal with
    | some j =>
      if j = idx then .ok (t.withTerminal (some idx))
      else .error "Conflicting routes for path"
    | none => .ok (t.withTerminal (some idx))
  | part :: rest, t =>
    if startsWithColon part then
      match t.dyn with
      | some (k, o, child) =>
        if k = dynKey part then
          match addRouteGo idx rest child with
          | .ok child2 =>
            .ok (RouteTree.mk (optTerminal idx part t) t.statics (some (k, o, child2)))
          | .error e => .error e
        else .error "Conflicting dynamic segments"
      | none =>
        match addRouteGo idx rest emptyTree with
        | .ok child2 =>
          .ok (RouteTree.mk (optTerminal idx part t) t.statics
            (some (dynKey part, endsWithQm part, child2)))
        | .error e => .error e
    else
      match addRouteGo idx rest ((lookupAssoc t.statics part).getD emptyTree) with
      | .ok child2 => .ok (RouteTree.mk t.terminal (setAssoc t.statics part child2) t.dyn)
      | .error e => .error e

/-- `addRouteToTree(route)` for the route registered at index `idx`. -/
def addRouteToTree (idx : Nat) (path : String) (t : RouteTree) : Except String RouteTree :=
  addRouteGo idx (splitFilter path) t

/-- Insert the routes after the first, with indices starting at 1
(`for (const route of routes.slice(1)) this.addRouteToTree(route)`). -/
def buildTreeGo (idx : Nat) : List String → RouteTree → Except String RouteTree
  | [], t => .ok t
  | path :: rest, t =>
    match addRouteToTree idx path t with
    | .ok t2 => buildTreeGo (idx + 1) rest t2
    | .error e => .error e

/-- The tree-building part of the `Router` constructor, over the route path
patterns only (the construction logic reads nothing else of a route). -/
def buildTree : List String → Except String RouteTree
  | [] => .error "At least one route is required to build the route tree."
  | first :: rest =>
    if first = "/" then buildTreeGo 1 rest (RouteTree.mk (some 0) [] none)
    else .error "The first route must be the root route with path /"

/-- Router state: the registered route list (the `cache` set of registered
routes is exactly this list; membership is index-in-range), the route tree,
and the metadata memoization cache. -/
structure Router (M : Type u) where
  routes : List (Route M)
  tree : RouteTree
  metadataCache : List (String × M)

/-- The `Router` constructor: builds the tree (or fails) and starts with an
empty metadata cache. -/
def buildRouter {M : Type u} (routes : List (Route M)) : Except String (Router M) :=
  match buildTree (routes.map (fun r => r.path)) with
  | .ok t => .ok { routes := routes, tree := t, metadataCache := [] }
  | .error e => .error e

/-- The loop body of `findParams`: walk the (filtered) route path segments
by index `i`, binding each dynamic segment's name to the pathname segment at
the same index — `undefined` (here `none`) when the pathname has no segment
there.  Stepping the pathname segments by `tail` makes `head?` the segment
at the current index. -/
def findParamsGo : List String → List String → Params → Params
  | [], _, params => params
  | rs :: rrest, psegs, params =>
    if startsWithColon rs then
      findParamsGo rrest psegs.tail (setAssoc params (tsParamName rs) psegs.head?)
    else
      findParamsGo rrest psegs.tail params

/-- `findParams(routePath, pathname)`. -/
def findParams (routePath pathname : String) : Params :=
  findParamsGo (splitFilter routePath) (splitFilter pathname) []

/-- The segment walk of `find`: prefer the exact static edge, else the
dynamic child, else fail.  (JS looks the segment up in a plain object; the
object is modelled as a record, so inherited `Object.prototype` keys such as
`"constructor"` are not modelled — no claim involves them.) -/
def walkTree : RouteTree → List String → Option RouteTree
  | t, [] => some t
  | t, seg :: rest =>
    match lookupAssoc t.statics seg with
    | some child => walkTree child rest
    | none =>
      match t.dyn with
      | some (_, _, child) => walkTree child rest
      | none => none

/-- `Router.find(path)`.  Returns the resolved metadata (or `none`) together
with the metadata cache after the call.  A cache hit is modelled as key
presence (the JS truthiness test on the cached metadata is not expressible
for opaque `M`).  The source asserts `this.tree.node!` on the `"/"` fast
path and indexes the route list through the stored terminal; a failed
assertion (impossible for a constructed router) is modelled as a `none`
result with the cache unchanged. -/
def Router.find {M : Type u} (r : Router M) (path : String) :
    Option M × List (String × M) :=
  match lookupAssoc r.metadataCache path with
  | some cached => (some cached, r.metadataCache)
  | none =>
    if path = "/" then
      match r.tree.terminal with
      | some idx =>
        match r.routes.get? idx with
        | some route =>
          (some (route.factory []),
           setAssoc r.metadataCache path (route.factory []))
        | none => (none, r.metadataCache)
      | none => (none, r.metadataCache)
    else
      match walkTree (RouteTree.mk none [("", r.tree)] none) (jsSplitSlash path) with
      | none => (none, r.metadataCache)
      | some node =>
        match node.terminal with
        | some idx =>
          match r.routes.get? idx with
          | some route =>
            (some (route.factory (findParams route.path path)),
             setAssoc r.metadataCache path (route.factory (findParams route.path path)))
          | none => (none, r.metadataCache)
        | none => (none, r.metadataCache)

/-- Resolve a path against a route list: construct the router and call
`find`, propagating construction failure and no-match alike as `none`.
The spec calls this operation `Resolve`. -/
def resolveList {M : Type u} (routes : List (Route M)) (path : String) : Option M :=
  match buildRouter routes with
  | .ok r => (r.find path).1
  | .error _ => none

/-! ### URL builder (`Router.url`) -/

/-- URL-building failures: the `throw`s of `Router.url`. -/
inductive UrlError where
  | notRegistered
  | missingParam (name : String) (routePath : String)
deriving DecidableEq

/-- JS truthiness of `params[paramName]` for a `string | undefined` value:
`undefined` and the empty string are falsy. -/
def truthyStr : Option String → Bool
  | none => false
  | some s => s != ""

/-- `urlParts.join("/")`. -/
def joinSlash : List String → String
  | [] => ""
  | [s] => s
  | s :: rest => s ++ "/" ++ joinSlash rest

/-- The emission loop of `Router.url`: `acc` is the `urlParts` array pushed
so far.  Hitting a falsy value (`!paramValue`: `undefined` or `""`) for an
optional parameter stops emission (`break`); for a required parameter it
throws, naming the parameter and the route. -/
def urlGo (routePath : String) (params : List (String × String)) :
    List String → List String → Except UrlError String
  | [], acc => .ok ("/" ++ joinSlash acc)
  | part :: rest, acc =>
    if startsWithColon part then
      if truthyStr (lookupAssoc params (tsParamName part)) then
        urlGo routePath params rest
          (acc ++ [(lookupAssoc params (tsParamName part)).getD ""])
      else
        if endsWithQm part then .ok ("/" ++ joinSlash acc)
        else .error (.missingParam (tsParamName part) routePath)
    else
      urlGo routePath params rest (acc ++ [part])

/-- `Router.url` for a given route path, called without query parameters
(the query-string branch of the source is skipped when `queryParams` is
`undefined`, which is the only form the claims exercise).  A provided
parameter map entry models a defined string value; an absent key models
`undefined`. -/
def urlCore (routePath : String) (params : List (String × String)) :
    Except UrlError String :=
  urlGo routePath params (splitFilter routePath) []

/-- `Router.url(route, params)` with the registration check
(`this.cache.has(route)`): the route is identified by its registration
index, and the registered set is exactly the constructor's route list. -/
def Router.url {M : Type u} (r : Router M) (idx : Nat)
    (params : List (String × String)) : Except UrlError String :=
  match r.routes.get? idx with
  | some route => urlCore route.path params
  | none => .error .notRegistered

/-! ### Auxiliary definitions used by the statements -/

/-- Decidable equality of URL-building results, for concrete evaluation. -/
instance {ε α : Type u} [DecidableEq ε] [DecidableEq α] :
    DecidableEq (Except ε α) := fun a b =>
  match a, b with
  | .ok x, .ok y =>
    if h : x = y then isTrue (by rw [h]) else isFalse (by simp [h])
  | .error x, .error y =>
    if h : x = y then isTrue (by rw [h]) else isFalse (by simp [h])
  | .ok _, .error _ => isFalse (by simp)
  | .error _, .ok _ => isFalse (by simp)

/-- Truthiness-normalisation of a looked-up URL parameter: collapses the
two falsy cases (`undefined` and the empty string) to `none`. -/
def normVal : Option String → Option String
  | none => none
  | some s => if s = "" then none else some s

/-- Remove every entry with the given key from a parameter map. -/
def eraseAssoc (ps : List (String × String)) (name : String) :
    List (String × String) :=
  ps.filter (fun kv => kv.1 != name)

/-- Lift server-side extracted parameters (all defined) to the client-side
parameter representation. -/
def liftParams (ps : List (String × String)) : Params :=
  ps.map (fun kv => (kv.1, some kv.2))

/-! ### Definitions for the trie / linear-matcher equivalence

The equivalence claim (C1) is settled through a characterisation of the
trie walk in terms of the linear matcher; the round-trip claim (C4) through
a self-walk argument over the same vocabulary (a path aligned with a
pattern retraces that pattern's insertion path).  The side conditions
(`trailingOptOnly`, `distinctList`, `validSeg`, `noTie`) are decidable so
that concrete witnesses can discharge them by evaluation. -/

/-- Success predicate of `matchPatternGo`, ignoring the accumulated
parameters. -/
def matchesB : List String → List String → Bool
  | [], pathParts => pathParts.isEmpty
  | pp :: rest, pathParts =>
    if startsWithColon pp then
      match pathParts with
      | _ :: segsRest => matchesB rest segsRest
      | [] => if endsWithQm pp then matchesB rest [] else false
    else
      match pathParts with
      | seg :: segsRest => if seg = pp then matchesB rest segsRest else false
      | [] => false

/-- The terminal route index reached by walking the trie along `segs`. -/
def walkT (t : RouteTree) (segs : List String) : Option Nat :=
  (walkTree t segs).bind RouteTree.terminal

/-- Left-biased combination of an old walk result with a new candidate. -/
def orElseN : Option Nat → Option Nat → Option Nat
  | some j, _ => some j
  | none, b => b

/-- First pattern (by index, starting at `k`) in a parts list that matches
the path segments. -/
def firstMatchFrom (k : Nat) : List (List String) → List String → Option Nat
  | [], _ => none
  | parts :: rest, segs =>
    if matchesB parts segs then some k else firstMatchFrom (k + 1) rest segs

/-- No static/dynamic tie along the walk of `segs`: at every visited node,
an exact static edge for the current segment and a dynamic child never
coexist (when they do, the trie's static preference and the linear
matcher's registration order are both in play). -/
def noTie : RouteTree → List String → Bool
  | _, [] => true
  | t, seg :: rest =>
    match lookupAssoc t.statics seg with
    | some child =>
      match t.dyn with
      | some _ => false
      | none => noTie child rest
    | none =>
      match t.dyn with
      | some (_, _, child) => noTie child rest
      | none => true

/-- An optional dynamic segment. -/
def isOptPart (s : String) : Bool := startsWithColon s && endsWithQm s

/-- Optional parameters occur only in trailing position. -/
def trailingOptOnly : List String → Bool
  | [] => true
  | [_] => true
  | p :: q :: rest => !(isOptPart p) && trailingOptOnly (q :: rest)

/-- The parameter names of a pattern's dynamic segments. -/
def dynNames (parts : List String) : List String :=
  (parts.filter (fun p => startsWithColon p)).map tsParamName

/-- Pairwise-distinct strings. -/
def distinctList : List String → Bool
  | [] => true
  | x :: rest => !(rest.contains x) && distinctList rest

/-- A canonical path segment: non-empty and free of `/`. -/
def validSeg (s : String) : Bool := s != "" && !(s.data.contains '/')

/-- The canonical path with the given segments (`"/"` when there are none). -/
def mkPath (segs : List String) : String := "/" ++ joinSlash segs

/-- Reflexive-transitive reachability between trie nodes, through static or
dynamic children. -/
inductive Sub : RouteTree → RouteTree → Prop where
  | refl (t : RouteTree) : Sub t t
  | staticStep (t c u : RouteTree) (p : String) :
      (p, c) ∈ t.statics → Sub c u → Sub t u
  | dynStep (t c u : RouteTree) (k : String) (o : Bool) :
      t.dyn = some (k, o, c) → Sub c u → Sub t u

/-- Every terminal index reachable in the tree is below `n` (the routes
inserted so far all have smaller indices). -/
def Fresh (n : Nat) (t : RouteTree) : Prop :=
  ∀ u, Sub t u → ∀ j, u.terminal = some j → j < n

/-- The segments emitted by the URL builder for a pattern when every looked
up dynamic value is truthy. -/
def emitParts (ps : List (String × String)) (parts : List String) : List String :=
  parts.map (fun part =>
    if startsWithColon part then (lookupAssoc ps (tsParamName part)).getD ""
    else part)

/-- The bindings the linear matcher extracts from a pattern matched against
its own emitted segments: each dynamic segment's name bound to the provided
value. -/
def dynBindings (ps : List (String × String)) (parts : List String) :
    List (String × String) :=
  (parts.filter (fun p => startsWithColon p)).map
    (fun p => (goParamName p, (lookupAssoc ps (tsParamName p)).getD ""))

/-- The route-spec view of a registered route (the shared pattern set). -/
def toSpec {M : Type u} (r : Route M) : RouteSpec := ⟨r.path, []⟩

/-- A dynamic segment's parameter is provided with a truthy, slash-free
value (decidable form of the round-trip side condition). -/
def providedValid (ps : List (String × String)) (part : String) : Bool :=
  match lookupAssoc ps (tsParamName part) with
  | some v => validSeg v
  | none => false

/-- The path segments follow the shape of the pattern position by position:
equal length, with every literal position equal (a dynamic position accepts
any segment).  The segments emitted for a fully provided parameter map have
exactly this shape, so the trie walk of such a path retraces the pattern's
own insertion path. -/
def aligned : List String → List String → Bool
  | [], [] => true
  | p :: prest, s :: srest =>
    (startsWithColon p || decide (p = s)) && aligned prest srest
  | _, _ => false

/-- A JS parameter object built by assigning the given key/value pairs in
order (`params[key] = value`; a later assignment to the same key
overwrites, as in the source's `findParams` loop). -/
def assignAll (l : List (String × Option String)) : Params :=
  l.foldl (fun m kv => setAssoc m kv.1 kv.2) []

/-! ### Concrete fixtures for the claims

The factory of each fixture route returns the extracted parameters
themselves, so resolution results expose the bindings. -/

/-- A route whose metadata is its extracted parameter map. -/
def idRoute (p : String) : Route Params := ⟨p, fun ps => ps⟩

/-- Route set `{"/", "/users/:id"}`. -/
def usersRoutes : List (Route Params) := [idRoute "/", idRoute "/users/:id"]

/-- Route set `{"/", "/posts/:id?"}`. -/
def postsRoutes : List (Route Params) := [idRoute "/", idRoute "/posts/:id?"]

/-- Route set `{"/", "/a/:x", "/a/b/c"}`. -/
def abRoutes : List (Route Params) :=
  [idRoute "/", idRoute "/a/:x", idRoute "/a/b/c"]

/-- Route set `{"/", "/users/:id", "/users/me"}`. -/
def shadowRoutes : List (Route Params) :=
  [idRoute "/", idRoute "/users/:id", idRoute "/users/me"]

/-- A one-route router on which lookups of any non-root path fail. -/
def rootOnlyRouter : Router Params :=
  { routes := [idRoute "/"], tree := RouteTree.mk (some 0) [] none,
    metadataCache := [] }

/-- A router over `usersRoutes` for exercising the URL builder (whose
behaviour depends only on the registered route list). -/
def usersUrlRouter : Router Params :=
  { routes := usersRoutes,
    tree := RouteTree.mk (some 0)
      [("users", RouteTree.mk none [] (some (":id", false, RouteTree.mk (some 1) [] none)))]
      none,
    metadataCache := [] }

/-! ## Supporting lemmas -/

theorem truthyStr_eq_isSome_normVal (v : Option String) :
    truthyStr v = (normVal v).isSome := by
  cases v with
  | none => rfl
  | some s => by_cases h : s = "" <;> simp [truthyStr, normVal, h]

theorem normVal_eq_self_of_truthy (v : Option String) (h : truthyStr v = true) :
    normVal v = v := by
  cases v with
  | none => simp [truthyStr] at h
  | some s =>
    simp [truthyStr] at h
    simp [normVal, h]

/-- The URL emission loop only observes parameter maps through the
truthiness-normalised lookup. -/
theorem urlGo_congr (routePath : String) (ps1 ps2 : List (String × String))
    (h : ∀ k, normVal (lookupAssoc ps1 k) = normVal (lookupAssoc ps2 k)) :
    ∀ (parts acc : List String),
      urlGo routePath ps1 parts acc = urlGo routePath ps2 parts acc := by
  intro parts
  induction parts with
  | nil => intro acc; rfl
  | cons part rest ih =>
    intro acc
    by_cases hc : startsWithColon part = true
    · have hv := h (tsParamName part)
      have ht : truthyStr (lookupAssoc ps1 (tsParamName part)) =
          truthyStr (lookupAssoc ps2 (tsParamName part)) := by
        rw [truthyStr_eq_isSome_normVal, truthyStr_eq_isSome_normVal, hv]
      by_cases htr : truthyStr (lookupAssoc ps1 (tsParamName part)) = true
      · have htr2 : truthyStr (lookupAssoc ps2 (tsParamName part)) = true := by
          rw [← ht]; exact htr
        have hveq : lookupAssoc ps1 (tsParamName part) =
            lookupAssoc ps2 (tsParamName part) := by
          rw [← normVal_eq_self_of_truthy _ htr, ← normVal_eq_self_of_truthy _ htr2, hv]
        simp only [urlGo, hc, if_true, htr, htr2, hveq]
        exact ih _
      · have htr2 : ¬ truthyStr (lookupAssoc ps2 (tsParamName part)) = true := by
          rw [← ht]; exact htr
        simp [urlGo, hc, htr, htr2]
    · simp only [urlGo, hc, if_false]
      exact ih _

theorem lookupAssoc_eraseAssoc_self (ps : List (String × String)) (name : String) :
    lookupAssoc (eraseAssoc ps name) name = none := by
  induction ps with
  | nil => rfl
  | cons kv rest ih =>
    simp only [eraseAssoc, List.filter_cons] at ih ⊢
    by_cases h : kv.1 = name
    · simp [h, ih]
    · simp [h, lookupAssoc, ih]

theorem lookupAssoc_eraseAssoc_ne (ps : List (String × String)) (name k : String)
    (h : k ≠ name) : lookupAssoc (eraseAssoc ps name) k = lookupAssoc ps k := by
  induction ps with
  | nil => rfl
  | cons kv rest ih =>
    simp only [eraseAssoc, List.filter_cons] at ih ⊢
    by_cases h1 : kv.1 = name
    · have h2 : ¬ kv.1 = k := by rw [h1]; exact fun hx => h hx.symm
      simp [h1, lookupAssoc, h2, h, Ne.symm h, ih]
    · by_cases h2 : kv.1 = k <;> simp [h1, lookupAssoc, h2, h, Ne.symm h, ih]

/-! ### Association-list lemmas -/

theorem lookupAssoc_setAssoc_self {α : Type u} (l : List (String × α))
    (k : String) (v : α) : lookupAssoc (setAssoc l k v) k = some v := by
  induction l with
  | nil => simp [setAssoc, lookupAssoc]
  | cons kv rest ih =>
    by_cases h : kv.1 = k <;> simp [setAssoc, h, lookupAssoc, ih]

theorem lookupAssoc_setAssoc_ne {α : Type u} (l : List (String × α))
    (k k' : String) (v : α) (h : k' ≠ k) :
    lookupAssoc (setAssoc l k v) k' = lookupAssoc l k' := by
  induction l with
  | nil => simp [setAssoc, lookupAssoc, h, Ne.symm h]
  | cons kv rest ih =>
    obtain ⟨a, b⟩ := kv
    simp only [setAssoc]
    by_cases h1 : a = k
    · rw [if_pos h1]
      simp [lookupAssoc, h, Ne.symm h, h1]
    · rw [if_neg h1]
      by_cases h2 : a = k' <;> simp [lookupAssoc, h2, ih]

theorem setAssoc_of_lookup_none {α : Type u} (l : List (String × α))
    (k : String) (v : α) (h : lookupAssoc l k = none) :
    setAssoc l k v = l ++ [(k, v)] := by
  induction l with
  | nil => rfl
  | cons kv rest ih =>
    obtain ⟨a, b⟩ := kv
    simp only [lookupAssoc] at h
    by_cases h1 : a = k
    · rw [if_pos h1] at h
      cases h
    · rw [if_neg h1] at h
      simp only [setAssoc, if_neg h1]
      rw [ih h]
      rfl

theorem mem_setAssoc {α : Type u} (l : List (String × α)) (k : String) (v : α)
    (kv : String × α) (h : kv ∈ setAssoc l k v) : kv = (k, v) ∨ kv ∈ l := by
  induction l with
  | nil => simpa [setAssoc] using h
  | cons hd rest ih =>
    obtain ⟨a, b⟩ := hd
    simp only [setAssoc] at h
    by_cases h1 : a = k
    · rw [if_pos h1] at h
      rcases List.mem_cons.mp h with h2 | h2
      · exact Or.inl h2
      · exact Or.inr (List.mem_cons_of_mem _ h2)
    · rw [if_neg h1] at h
      rcases List.mem_cons.mp h with h2 | h2
      · exact Or.inr (h2 ▸ List.mem_cons_self _ _)
      · rcases ih h2 with h3 | h3
        · exact Or.inl h3
        · exact Or.inr (List.mem_cons_of_mem _ h3)

theorem lookupAssoc_mem {α : Type u} (l : List (String × α)) (k : String)
    (v : α) (h : lookupAssoc l k = some v) : (k, v) ∈ l := by
  induction l with
  | nil => simp [lookupAssoc] at h
  | cons hd rest ih =>
    obtain ⟨a, b⟩ := hd
    simp only [lookupAssoc] at h
    by_cases h1 : a = k
    · rw [if_pos h1] at h
      cases h
      rw [h1]
      exact List.mem_cons_self _ _
    · rw [if_neg h1] at h
      exact List.mem_cons_of_mem _ (ih h)

/-- Lifting commutes with assignment. -/
theorem liftParams_setAssoc (l : List (String × String)) (k v : String) :
    liftParams (setAssoc l k v) = setAssoc (liftParams l) k (some v) := by
  induction l with
  | nil => rfl
  | cons kv rest ih =>
    obtain ⟨a, b⟩ := kv
    simp only [setAssoc, liftParams, List.map_cons]
    by_cases h : a = k
    · rw [if_pos h, if_pos h]
      simp [liftParams]
    · rw [if_neg h, if_neg h]
      simp only [List.map_cons]
      have ih2 : List.map (fun kv => (kv.1, some kv.2)) (setAssoc rest k v) =
          setAssoc (List.map (fun kv => (kv.1, some kv.2)) rest) k (some v) := ih
      rw [ih2]

theorem lookupAssoc_liftParams (l : List (String × String)) (k : String) :
    lookupAssoc (liftParams l) k = (lookupAssoc l k).map some := by
  induction l with
  | nil => rfl
  | cons kv rest ih =>
    obtain ⟨a, b⟩ := kv
    simp only [liftParams, List.map_cons, lookupAssoc]
    by_cases h : a = k
    · rw [if_pos h, if_pos h]
      rfl
    · rw [if_neg h, if_neg h]
      exact ih

/-! ### Walk and match basics -/

theorem walkT_nil (t : RouteTree) : walkT t [] = t.terminal := rfl

theorem walkT_emptyTree (segs : List String) : walkT emptyTree segs = none := by
  cases segs <;> rfl

theorem walkTree_sub (segs : List String) :
    ∀ (t u : RouteTree), walkTree t segs = some u → Sub t u := by
  induction segs with
  | nil =>
    intro t u h
    cases h
    exact Sub.refl t
  | cons seg rest ih =>
    intro t u h
    unfold walkTree at h
    rcases hs : lookupAssoc t.statics seg with _ | child
    · rw [hs] at h
      rcases hd : t.dyn with _ | ⟨k, o, child⟩
      · rw [hd] at h; cases h
      · rw [hd] at h
        exact Sub.dynStep t child u k o hd (ih child u h)
    · rw [hs] at h
      exact Sub.staticStep t child u seg (lookupAssoc_mem _ _ _ hs) (ih child u h)

/-! ### Freshness of terminal indices -/

theorem sub_trans (t u w : RouteTree) (h1 : Sub t u) : Sub u w → Sub t w := by
  induction h1 with
  | refl _ => exact fun h2 => h2
  | staticStep t1 c u1 p hmem _ ih =>
    exact fun h2 => Sub.staticStep t1 c w p hmem (ih h2)
  | dynStep t1 c u1 k o hd _ ih =>
    exact fun h2 => Sub.dynStep t1 c w k o hd (ih h2)

theorem sub_static (t c : RouteTree) (p : String) (h : (p, c) ∈ t.statics) :
    Sub t c := Sub.staticStep t c c p h (Sub.refl c)

theorem sub_dyn (t c : RouteTree) (k : String) (o : Bool)
    (h : t.dyn = some (k, o, c)) : Sub t c := Sub.dynStep t c c k o h (Sub.refl c)

theorem fresh_mono (n m : Nat) (t : RouteTree) (h : Fresh n t) (hnm : n ≤ m) :
    Fresh m t := fun u hs j hj => Nat.lt_of_lt_of_le (h u hs j hj) hnm

theorem fresh_of_sub (n : Nat) (t u : RouteTree) (hf : Fresh n t) (hs : Sub t u) :
    Fresh n u := fun w hw j hj => hf w (sub_trans t u w hs hw) j hj

theorem fresh_terminal (n : Nat) (t : RouteTree) (hf : Fresh n t) :
    ∀ j, t.terminal = some j → j < n := fun j hj => hf t (Sub.refl t) j hj

theorem fresh_static_child (n : Nat) (t c : RouteTree) (p : String)
    (hf : Fresh n t) (h : (p, c) ∈ t.statics) : Fresh n c :=
  fresh_of_sub n t c hf (sub_static t c p h)

theorem fresh_dyn_child (n : Nat) (t c : RouteTree) (k : String) (o : Bool)
    (hf : Fresh n t) (h : t.dyn = some (k, o, c)) : Fresh n c :=
  fresh_of_sub n t c hf (sub_dyn t c k o h)

theorem fresh_mk (n : Nat) (term : Option Nat) (st : List (String × RouteTree))
    (d : Option (String × Bool × RouteTree))
    (hterm : ∀ j, term = some j → j < n)
    (hst : ∀ p c, (p, c) ∈ st → Fresh n c)
    (hd : ∀ k o c, d = some (k, o, c) → Fresh n c) :
    Fresh n (RouteTree.mk term st d) := by
  intro u hs j hj
  cases hs with
  | refl _ => exact hterm j hj
  | staticStep _ c _ p hmem hsub => exact hst p c hmem u hsub j hj
  | dynStep _ c _ k o hdd hsub => exact hd k o c hdd u hsub j hj

theorem fresh_emptyTree (n : Nat) : Fresh n emptyTree := by
  apply fresh_mk
  · intro j hj; cases hj
  · intro p c hmem; cases hmem
  · intro k o c hd; cases hd

/-- Inserting a route with index `idx` into a tree whose reachable terminals
are all below `idx` yields a tree whose reachable terminals are all below
`idx + 1`. -/
theorem fresh_insert (idx : Nat) :
    ∀ (parts : List String) (T T' : RouteTree),
      addRouteGo idx parts T = .ok T' → Fresh idx T → Fresh (idx + 1) T' := by
  intro parts
  induction parts with
  | nil =>
    intro T T' h hf
    unfold addRouteGo at h
    split at h
    · rename_i j hterm
      split at h
      · rename_i hji
        exact absurd (hji ▸ fresh_terminal idx T hf j hterm) (Nat.lt_irrefl idx)
      · cases h
    · rename_i hterm
      cases h
      cases T with
      | mk term st d =>
        apply fresh_mk
        · intro j hj
          cases hj
          exact Nat.lt_succ_self idx
        · intro p c hmem
          exact fresh_mono idx (idx + 1) c
            (fresh_static_child idx _ c p hf hmem) (Nat.le_succ idx)
        · intro k o c hd
          exact fresh_mono idx (idx + 1) c
            (fresh_dyn_child idx _ c k o hf hd) (Nat.le_succ idx)
  | cons part rest ih =>
    intro T T' h hf
    unfold addRouteGo at h
    split at h
    · -- dynamic segment
      split at h
      · -- existing dynamic child
        rename_i k o child hdy
        split at h
        · split at h
          · rename_i child2 hrec
            cases h
            apply fresh_mk
            · intro j hj
              unfold optTerminal at hj
              split at hj
              · cases hj; exact Nat.lt_succ_self idx
              · exact Nat.lt_succ_of_lt (fresh_terminal idx T hf j hj)
            · intro p c hmem
              exact fresh_mono idx (idx + 1) c
                (fresh_static_child idx T c p hf hmem) (Nat.le_succ idx)
            · intro k1 o1 c hd
              cases hd
              exact ih child _ hrec (fresh_dyn_child idx T _ k o hf hdy)
          · cases h
        · cases h
      · -- fresh dynamic child
        rename_i hdy
        split at h
        · rename_i child2 hrec
          cases h
          apply fresh_mk
          · intro j hj
            unfold optTerminal at hj
            split at hj
            · cases hj; exact Nat.lt_succ_self idx
            · exact Nat.lt_succ_of_lt (fresh_terminal idx T hf j hj)
          · intro p c hmem
            exact fresh_mono idx (idx + 1) c
              (fresh_static_child idx T c p hf hmem) (Nat.le_succ idx)
          · intro k1 o1 c hd
            cases hd
            exact ih emptyTree _ hrec (fresh_emptyTree idx)
        · cases h
    · -- literal segment
      split at h
      · rename_i child2 hrec
        cases h
        apply fresh_mk
        · intro j hj
          exact Nat.lt_succ_of_lt (fresh_terminal idx T hf j hj)
        · intro p c hmem
          rcases mem_setAssoc T.statics part child2 (p, c) hmem with h2 | h2
          · cases h2
            apply ih _ _ hrec
            rcases hlook : lookupAssoc T.statics part with _ | c0
            · exact fresh_emptyTree idx
            · exact fresh_static_child idx T c0 part hf (lookupAssoc_mem _ _ _ hlook)
          · exact fresh_mono idx (idx + 1) c
              (fresh_static_child idx T c p hf h2) (Nat.le_succ idx)
        · intro k o c hd
          exact fresh_mono idx (idx + 1) c
            (fresh_dyn_child idx T c k o hf hd) (Nat.le_succ idx)
      · cases h

/-! ### Small step lemmas for walks, ties and insertion -/

theorem orElseN_none_right (x : Option Nat) : orElseN x none = x := by
  cases x <;> rfl

theorem walkTree_cons_static (t c : RouteTree) (s : String) (rest : List String)
    (h : lookupAssoc t.statics s = some c) :
    walkTree t (s :: rest) = walkTree c rest := by
  conv_lhs => unfold walkTree
  rw [h]

theorem walkTree_cons_dyn (t c : RouteTree) (s k : String) (o : Bool)
    (rest : List String) (hs : lookupAssoc t.statics s = none)
    (hd : t.dyn = some (k, o, c)) :
    walkTree t (s :: rest) = walkTree c rest := by
  conv_lhs => unfold walkTree
  rw [hs, hd]

theorem walkTree_cons_none (t : RouteTree) (s : String) (rest : List String)
    (hs : lookupAssoc t.statics s = none) (hd : t.dyn = none) :
    walkTree t (s :: rest) = none := by
  conv_lhs => unfold walkTree
  rw [hs, hd]

theorem walkT_cons_static (t c : RouteTree) (s : String) (rest : List String)
    (h : lookupAssoc t.statics s = some c) : walkT t (s :: rest) = walkT c rest := by
  unfold walkT
  rw [walkTree_cons_static t c s rest h]

theorem walkT_cons_dyn (t c : RouteTree) (s k : String) (o : Bool)
    (rest : List String) (hs : lookupAssoc t.statics s = none)
    (hd : t.dyn = some (k, o, c)) : walkT t (s :: rest) = walkT c rest := by
  unfold walkT
  rw [walkTree_cons_dyn t c s k o rest hs hd]

theorem walkT_cons_none (t : RouteTree) (s : String) (rest : List String)
    (hs : lookupAssoc t.statics s = none) (hd : t.dyn = none) :
    walkT t (s :: rest) = none := by
  unfold walkT
  rw [walkTree_cons_none t s rest hs hd]
  rfl

theorem noTie_cons_static_dyn (t c : RouteTree) (s : String) (rest : List String)
    (x : String × Bool × RouteTree) (hs : lookupAssoc t.statics s = some c)
    (hd : t.dyn = some x) : noTie t (s :: rest) = false := by
  conv_lhs => unfold noTie
  rw [hs, hd]

theorem noTie_cons_static (t c : RouteTree) (s : String) (rest : List String)
    (hs : lookupAssoc t.statics s = some c) (hd : t.dyn = none) :
    noTie t (s :: rest) = noTie c rest := by
  conv_lhs => unfold noTie
  rw [hs, hd]

theorem noTie_cons_dyn (t c : RouteTree) (s k : String) (o : Bool)
    (rest : List String) (hs : lookupAssoc t.statics s = none)
    (hd : t.dyn = some (k, o, c)) : noTie t (s :: rest) = noTie c rest := by
  conv_lhs => unfold noTie
  rw [hs, hd]

theorem noTie_cons_none (t : RouteTree) (s : String) (rest : List String)
    (hs : lookupAssoc t.statics s = none) (hd : t.dyn = none) :
    noTie t (s :: rest) = true := by
  conv_lhs => unfold noTie
  rw [hs, hd]

theorem noTie_terminal_irrel (a b : Option Nat) (st : List (String × RouteTree))
    (d : Option (String × Bool × RouteTree)) (segs : List String) :
    noTie (RouteTree.mk a st d) segs = noTie (RouteTree.mk b st d) segs := by
  cases segs <;> rfl

theorem walkT_cons_terminal_irrel (a b : Option Nat)
    (st : List (String × RouteTree)) (d : Option (String × Bool × RouteTree))
    (s : String) (rest : List String) :
    walkT (RouteTree.mk a st d) (s :: rest) = walkT (RouteTree.mk b st d) (s :: rest) := rfl

theorem trailingOptOnly_tail (p : String) (rest : List String)
    (h : trailingOptOnly (p :: rest) = true) : trailingOptOnly rest = true := by
  cases rest with
  | nil => rfl
  | cons q rr =>
    have h2 : isOptPart p = false ∧ trailingOptOnly (q :: rr) = true := by
      simpa [trailingOptOnly] using h
    exact h2.2

theorem trailingOptOnly_head (p q : String) (rest : List String)
    (h : trailingOptOnly (p :: q :: rest) = true) : isOptPart p = false := by
  have h2 : isOptPart p = false ∧ trailingOptOnly (q :: rest) = true := by
    simpa [trailingOptOnly] using h
  exact h2.1

theorem optTerminal_required (idx : Nat) (part : String) (t : RouteTree)
    (hq : endsWithQm part = false) : optTerminal idx part t = t.terminal := by
  simp [optTerminal, hq]

theorem optTerminal_opt_none (idx : Nat) (part : String) (t : RouteTree)
    (hq : endsWithQm part = true) (ht : t.terminal = none) :
    optTerminal idx part t = some idx := by
  simp [optTerminal, hq, ht]

theorem optTerminal_opt_some (idx j : Nat) (part : String) (t : RouteTree)
    (ht : t.terminal = some j) : optTerminal idx part t = some j := by
  simp [optTerminal, ht]

theorem addRouteGo_nil_ok (idx : Nat) (T T' : RouteTree)
    (h : addRouteGo idx [] T = .ok T') (hf : Fresh idx T) :
    T.terminal = none ∧ T' = T.withTerminal (some idx) := by
  unfold addRouteGo at h
  split at h
  · rename_i j hterm
    split at h
    · rename_i hji
      exact absurd (hji ▸ fresh_terminal idx T hf j hterm) (Nat.lt_irrefl idx)
    · cases h
  · rename_i hterm
    cases h
    exact ⟨hterm, rfl⟩

theorem withTerminal_terminal (t : RouteTree) (x : Option Nat) :
    (t.withTerminal x).terminal = x := by cases t; rfl

theorem withTerminal_statics (t : RouteTree) (x : Option Nat) :
    (t.withTerminal x).statics = t.statics := by cases t; rfl

theorem withTerminal_dyn (t : RouteTree) (x : Option Nat) :
    (t.withTerminal x).dyn = t.dyn := by cases t; rfl

theorem walkT_withTerminal_cons (t : RouteTree) (x : Option Nat) (s : String)
    (rest : List String) :
    walkT (t.withTerminal x) (s :: rest) = walkT t (s :: rest) := by
  cases t; rfl

theorem noTie_withTerminal (t : RouteTree) (x : Option Nat) (segs : List String) :
    noTie (t.withTerminal x) segs = noTie t segs := by
  cases t; cases segs <;> rfl

theorem matchesB_nil (segs : List String) : matchesB [] segs = segs.isEmpty := rfl

theorem matchesB_cons_dyn (pp : String) (rest : List String) (s : String)
    (srest : List String) (hc : startsWithColon pp = true) :
    matchesB (pp :: rest) (s :: srest) = matchesB rest srest := by
  simp [matchesB, hc]

theorem matchesB_cons_dyn_nil (pp : String) (rest : List String)
    (hc : startsWithColon pp = true) :
    matchesB (pp :: rest) [] = if endsWithQm pp then matchesB rest [] else false := by
  simp [matchesB, hc]

theorem matchesB_cons_lit (pp : String) (rest : List String) (s : String)
    (srest : List String) (hc : startsWithColon pp = false) :
    matchesB (pp :: rest) (s :: srest) =
      if s = pp then matchesB rest srest else false := by
  simp [matchesB, hc]

theorem matchesB_cons_lit_nil (pp : String) (rest : List String)
    (hc : startsWithColon pp = false) : matchesB (pp :: rest) [] = false := by
  simp [matchesB, hc]

/-- The success of `matchPatternGo` does not depend on the accumulated
parameters. -/
theorem matchPatternGo_isSome (parts : List String) :
    ∀ (segs : List String) (acc : List (String × String)),
      (matchPatternGo parts segs acc).isSome = matchesB parts segs := by
  induction parts with
  | nil => intro segs acc; cases segs <;> simp [matchPatternGo, matchesB]
  | cons pp rest ih =>
    intro segs acc
    by_cases hc : startsWithColon pp = true
    · cases segs with
      | nil =>
        by_cases hq : endsWithQm pp = true <;>
          simp [matchPatternGo, matchesB, hc, hq, ih]
      | cons s srest => simp [matchPatternGo, matchesB, hc, ih]
    · cases segs with
      | nil => simp [matchPatternGo, matchesB, hc]
      | cons s srest =>
        by_cases hs : s = pp <;> simp [matchPatternGo, matchesB, hc, hs, ih]

theorem terminal_mk (a : Option Nat) (st : List (String × RouteTree))
    (d : Option (String × Bool × RouteTree)) :
    RouteTree.terminal (RouteTree.mk a st d) = a := rfl

/-- Core characterisation of a single insertion: under freshness of the
inserted index, trailing-only optionals in the inserted pattern and the
absence of static/dynamic ties along the walk of the new tree, the new walk
result is the old walk result refined by a match of the inserted pattern,
and the old walk was also tie-free. -/
theorem insert_walkT (idx : Nat) :
    ∀ (parts : List String) (T T' : RouteTree) (segs : List String),
      addRouteGo idx parts T = .ok T' →
      Fresh idx T →
      trailingOptOnly parts = true →
      noTie T' segs = true →
      noTie T segs = true ∧
      walkT T' segs = orElseN (walkT T segs)
        (if matchesB parts segs then some idx else none) := by
  intro parts
  induction parts with
  | nil =>
    intro T T' segs h hf _ hnt
    obtain ⟨hterm, hT'⟩ := addRouteGo_nil_ok idx T T' h hf
    subst hT'
    cases segs with
    | nil =>
      refine ⟨rfl, ?_⟩
      rw [walkT_nil, walkT_nil, withTerminal_terminal, hterm]
      rfl
    | cons s rest =>
      rw [noTie_withTerminal] at hnt
      refine ⟨hnt, ?_⟩
      rw [walkT_withTerminal_cons]
      simp [matchesB_nil, orElseN_none_right]
  | cons part prest ih =>
    intro T T' segs h hf htrail hnt
    unfold addRouteGo at h
    split at h
    · -- dynamic segment
      rename_i hcolon
      split at h
      · -- existing dynamic child
        rename_i k o child hdy
        split at h
        · rename_i hkey
          split at h
          · rename_i child2 hrec
            cases h
            by_cases hq : endsWithQm part = true
            · -- optional dynamic: must be the last pattern segment
              have hprest : prest = [] := by
                cases prest with
                | nil => rfl
                | cons q rr =>
                  have hopt := trailingOptOnly_head part q rr htrail
                  rw [isOptPart, hcolon, hq] at hopt
                  cases hopt
              subst hprest
              have hcf : Fresh idx child := fresh_dyn_child idx T child k o hf hdy
              obtain ⟨hcterm, hc2⟩ := addRouteGo_nil_ok idx child child2 hrec hcf
              subst hc2
              cases segs with
              | nil =>
                refine ⟨rfl, ?_⟩
                rcases ht : T.terminal with _ | j
                · rw [walkT_nil, walkT_nil, terminal_mk,
                    optTerminal_opt_none idx part T hq ht, ht]
                  simp [matchesB_cons_dyn_nil, hcolon, hq, matchesB_nil, orElseN]
                · rw [walkT_nil, walkT_nil, terminal_mk,
                    optTerminal_opt_some idx j part T ht, ht]
                  rfl
              | cons s rest =>
                rcases hls : lookupAssoc T.statics s with _ | c
                · have hdy2 : (RouteTree.mk (optTerminal idx part T) T.statics
                      (some (k, o, child.withTerminal (some idx)))).dyn =
                      some (k, o, child.withTerminal (some idx)) := rfl
                  have hls2 : lookupAssoc (RouteTree.mk (optTerminal idx part T)
                      T.statics (some (k, o, child.withTerminal (some idx)))).statics
                      s = none := hls
                  have hntc : noTie (child.withTerminal (some idx)) rest = true := by
                    rw [noTie_cons_dyn _ _ s k o rest hls2 hdy2] at hnt
                    exact hnt
                  refine ⟨?_, ?_⟩
                  · rw [noTie_cons_dyn T child s k o rest hls hdy]
                    rw [noTie_withTerminal] at hntc
                    exact hntc
                  · rw [walkT_cons_dyn _ _ s k o rest hls2 hdy2,
                      walkT_cons_dyn T child s k o rest hls hdy,
                      matchesB_cons_dyn part [] s rest hcolon]
                    cases rest with
                    | nil =>
                      rw [walkT_nil, walkT_nil, withTerminal_terminal, hcterm]
                      rfl
                    | cons r rr =>
                      rw [walkT_withTerminal_cons]
                      simp [matchesB_nil, orElseN_none_right]
                · have hfalse := noTie_cons_static_dyn
                    (RouteTree.mk (optTerminal idx part T) T.statics
                      (some (k, o, child.withTerminal (some idx)))) c s rest
                    (k, o, child.withTerminal (some idx)) hls rfl
                  rw [hfalse] at hnt
                  cases hnt
            · -- required dynamic
              have hq2 : endsWithQm part = false := by
                cases hqq : endsWithQm part
                · rfl
                · exact absurd hqq hq
              cases segs with
              | nil =>
                refine ⟨rfl, ?_⟩
                rw [walkT_nil, walkT_nil, terminal_mk,
                  optTerminal_required idx part T hq2]
                simp [matchesB_cons_dyn_nil, hcolon, hq2, orElseN_none_right]
              | cons s rest =>
                rcases hls : lookupAssoc T.statics s with _ | c
                · have hdy2 : (RouteTree.mk (optTerminal idx part T) T.statics
                      (some (k, o, child2))).dyn = some (k, o, child2) := rfl
                  have hls2 : lookupAssoc (RouteTree.mk (optTerminal idx part T)
                      T.statics (some (k, o, child2))).statics s = none := hls
                  have hntc : noTie child2 rest = true := by
                    rw [noTie_cons_dyn _ _ s k o rest hls2 hdy2] at hnt
                    exact hnt
                  obtain ⟨hnc, hwc⟩ := ih child child2 rest hrec
                    (fresh_dyn_child idx T child k o hf hdy)
                    (trailingOptOnly_tail part prest htrail) hntc
                  refine ⟨?_, ?_⟩
                  · rw [noTie_cons_dyn T child s k o rest hls hdy]
                    exact hnc
                  · rw [walkT_cons_dyn _ _ s k o rest hls2 hdy2,
                      walkT_cons_dyn T child s k o rest hls hdy,
                      matchesB_cons_dyn part prest s rest hcolon]
                    exact hwc
                · have hfalse := noTie_cons_static_dyn
                    (RouteTree.mk (optTerminal idx part T) T.statics
                      (some (k, o, child2))) c s rest (k, o, child2) hls rfl
                  rw [hfalse] at hnt
                  cases hnt
          · cases h
        · cases h
      · -- no dynamic child yet
        rename_i hdy
        split at h
        · rename_i child2 hrec
          cases h
          by_cases hq : endsWithQm part = true
          · have hprest : prest = [] := by
              cases prest with
              | nil => rfl
              | cons q rr =>
                have hopt := trailingOptOnly_head part q rr htrail
                rw [isOptPart, hcolon, hq] at hopt
                cases hopt
            subst hprest
            obtain ⟨hcterm, hc2⟩ :=
              addRouteGo_nil_ok idx emptyTree child2 hrec (fresh_emptyTree idx)
            subst hc2
            cases segs with
            | nil =>
              refine ⟨rfl, ?_⟩
              rcases ht : T.terminal with _ | j
              · rw [walkT_nil, walkT_nil, terminal_mk,
                  optTerminal_opt_none idx part T hq ht, ht]
                simp [matchesB_cons_dyn_nil, hcolon, hq, matchesB_nil, orElseN]
              · rw [walkT_nil, walkT_nil, terminal_mk,
                  optTerminal_opt_some idx j part T ht, ht]
                rfl
            | cons s rest =>
              rcases hls : lookupAssoc T.statics s with _ | c
              · have hdy2 : (RouteTree.mk (optTerminal idx part T) T.statics
                    (some (dynKey part, endsWithQm part,
                      emptyTree.withTerminal (some idx)))).dyn =
                    some (dynKey part, endsWithQm part,
                      emptyTree.withTerminal (some idx)) := rfl
                have hls2 : lookupAssoc (RouteTree.mk (optTerminal idx part T)
                    T.statics (some (dynKey part, endsWithQm part,
                      emptyTree.withTerminal (some idx)))).statics s = none := hls
                refine ⟨?_, ?_⟩
                · rw [noTie_cons_none T s rest hls hdy]
                · rw [walkT_cons_dyn _ _ s (dynKey part) (endsWithQm part) rest hls2 hdy2,
                    walkT_cons_none T s rest hls hdy,
                    matchesB_cons_dyn part [] s rest hcolon]
                  cases rest with
                  | nil =>
                    rw [walkT_nil, withTerminal_terminal]
                    rfl
                  | cons r rr =>
                    rw [walkT_withTerminal_cons]
                    rw [walkT_emptyTree]
                    simp [matchesB_nil, orElseN]
              · have hfalse := noTie_cons_static_dyn
                  (RouteTree.mk (optTerminal idx part T) T.statics
                    (some (dynKey part, endsWithQm part,
                      emptyTree.withTerminal (some idx)))) c s rest
                  (dynKey part, endsWithQm part, emptyTree.withTerminal (some idx))
                  hls rfl
                rw [hfalse] at hnt
                cases hnt
          · have hq2 : endsWithQm part = false := by
              cases hqq : endsWithQm part
              · rfl
              · exact absurd hqq hq
            cases segs with
            | nil =>
              refine ⟨rfl, ?_⟩
              rw [walkT_nil, walkT_nil, terminal_mk,
                optTerminal_required idx part T hq2]
              simp [matchesB_cons_dyn_nil, hcolon, hq2, orElseN_none_right]
            | cons s rest =>
              rcases hls : lookupAssoc T.statics s with _ | c
              · have hdy2 : (RouteTree.mk (optTerminal idx part T) T.statics
                    (some (dynKey part, endsWithQm part, child2))).dyn =
                    some (dynKey part, endsWithQm part, child2) := rfl
                have hls2 : lookupAssoc (RouteTree.mk (optTerminal idx part T)
                    T.statics (some (dynKey part, endsWithQm part, child2))).statics
                    s = none := hls
                have hntc : noTie child2 rest = true := by
                  rw [noTie_cons_dyn _ _ s (dynKey part) (endsWithQm part) rest
                    hls2 hdy2] at hnt
                  exact hnt
                obtain ⟨hnc, hwc⟩ := ih emptyTree child2 rest hrec
                  (fresh_emptyTree idx)
                  (trailingOptOnly_tail part prest htrail) hntc
                refine ⟨?_, ?_⟩
                · rw [noTie_cons_none T s rest hls hdy]
                · rw [walkT_cons_dyn _ _ s (dynKey part) (endsWithQm part) rest hls2 hdy2,
                    walkT_cons_none T s rest hls hdy,
                    matchesB_cons_dyn part prest s rest hcolon]
                  rw [hwc, walkT_emptyTree]
              · have hfalse := noTie_cons_static_dyn
                  (RouteTree.mk (optTerminal idx part T) T.statics
                    (some (dynKey part, endsWithQm part, child2))) c s rest
                  (dynKey part, endsWithQm part, child2) hls rfl
                rw [hfalse] at hnt
                cases hnt
        · cases h
    · -- literal segment
      rename_i hcolon
      have hcolon2 : startsWithColon part = false := by
        cases hc : startsWithColon part
        · rfl
        · exact absurd hc hcolon
      split at h
      · rename_i child2 hrec
        cases h
        cases segs with
        | nil =>
          refine ⟨rfl, ?_⟩
          rw [walkT_nil, walkT_nil, terminal_mk]
          simp [matchesB_cons_lit_nil, hcolon2, orElseN_none_right]
        | cons s rest =>
          by_cases hsp : s = part
          · subst hsp
            rcases hdy : T.dyn with _ | x
            · rw [hdy] at hnt
              have hls2 : lookupAssoc (RouteTree.mk T.terminal
                  (setAssoc T.statics s child2) none).statics s = some child2 :=
                lookupAssoc_setAssoc_self T.statics s child2
              have hntc : noTie child2 rest = true := by
                rw [noTie_cons_static _ child2 s rest hls2 rfl] at hnt
                exact hnt
              rcases hlook : lookupAssoc T.statics s with _ | c0
              · rw [hlook] at hrec
                obtain ⟨hnc, hwc⟩ := ih emptyTree child2 rest hrec
                  (fresh_emptyTree idx)
                  (trailingOptOnly_tail s prest htrail) hntc
                refine ⟨?_, ?_⟩
                · rw [noTie_cons_none T s rest hlook hdy]
                · rw [walkT_cons_static _ child2 s rest hls2,
                    walkT_cons_none T s rest hlook hdy,
                    matchesB_cons_lit s prest s rest hcolon2]
                  rw [hwc, walkT_emptyTree]
                  simp [orElseN]
              · rw [hlook] at hrec
                obtain ⟨hnc, hwc⟩ := ih c0 child2 rest hrec
                  (fresh_static_child idx T c0 s hf (lookupAssoc_mem _ _ _ hlook))
                  (trailingOptOnly_tail s prest htrail) hntc
                refine ⟨?_, ?_⟩
                · rw [noTie_cons_static T c0 s rest hlook hdy]
                  exact hnc
                · rw [walkT_cons_static _ child2 s rest hls2,
                    walkT_cons_static T c0 s rest hlook,
                    matchesB_cons_lit s prest s rest hcolon2]
                  simp only [if_pos rfl]
                  exact hwc
            · rw [hdy] at hnt
              have hfalse := noTie_cons_static_dyn
                (RouteTree.mk T.terminal (setAssoc T.statics s child2) (some x))
                child2 s rest x (lookupAssoc_setAssoc_self T.statics s child2) rfl
              rw [hfalse] at hnt
              cases hnt
          · have hmB : matchesB (part :: prest) (s :: rest) = false := by
              rw [matchesB_cons_lit part prest s rest hcolon2, if_neg hsp]
            rcases hlook : lookupAssoc T.statics s with _ | c
            · rcases hdy : T.dyn with _ | ⟨k, o, c⟩
              · have hls2 : lookupAssoc (RouteTree.mk T.terminal
                    (setAssoc T.statics part child2) none).statics s =
                    lookupAssoc T.statics s :=
                  lookupAssoc_setAssoc_ne T.statics part s child2 hsp
                refine ⟨?_, ?_⟩
                · rw [noTie_cons_none T s rest hlook hdy]
                · rw [walkT_cons_none _ s rest (hls2.trans hlook) rfl,
                    walkT_cons_none T s rest hlook hdy, hmB]
                  rfl
              · have hls2 : lookupAssoc (RouteTree.mk T.terminal
                    (setAssoc T.statics part child2) (some (k, o, c))).statics s =
                    lookupAssoc T.statics s :=
                  lookupAssoc_setAssoc_ne T.statics part s child2 hsp
                have hntc : noTie c rest = true := by
                  rw [hdy] at hnt
                  rw [noTie_cons_dyn _ c s k o rest (hls2.trans hlook) rfl] at hnt
                  exact hnt
                refine ⟨?_, ?_⟩
                · rw [noTie_cons_dyn T c s k o rest hlook hdy]
                  exact hntc
                · rw [walkT_cons_dyn _ c s k o rest (hls2.trans hlook) rfl,
                    walkT_cons_dyn T c s k o rest hlook hdy, hmB]
                  simp [orElseN_none_right]
            · rcases hdy : T.dyn with _ | x
              · have hls2 : lookupAssoc (RouteTree.mk T.terminal
                    (setAssoc T.statics part child2) none).statics s =
                    lookupAssoc T.statics s :=
                  lookupAssoc_setAssoc_ne T.statics part s child2 hsp
                have hntc : noTie c rest = true := by
                  rw [hdy] at hnt
                  rw [noTie_cons_static _ c s rest (hls2.trans hlook) rfl] at hnt
                  exact hnt
                refine ⟨?_, ?_⟩
                · rw [noTie_cons_static T c s rest hlook hdy]
                  exact hntc
                · rw [walkT_cons_static _ c s rest (hls2.trans hlook),
                    walkT_cons_static T c s rest hlook, hmB]
                  simp [orElseN_none_right]
              · rw [hdy] at hnt
                have hls2 : lookupAssoc (RouteTree.mk T.terminal
                    (setAssoc T.statics part child2) (some x)).statics s =
                    lookupAssoc T.statics s :=
                  lookupAssoc_setAssoc_ne T.statics part s child2 hsp
                have hfalse := noTie_cons_static_dyn
                  (RouteTree.mk T.terminal (setAssoc T.statics part child2) (some x))
                  c s rest x (hls2.trans hlook) rfl
                rw [hfalse] at hnt
                cases hnt
      · cases h

theorem orElseN_assoc (a b c : Option Nat) :
    orElseN (orElseN a b) c = orElseN a (orElseN b c) := by
  cases a <;> rfl

theorem buildGo_fresh :
    ∀ (pats : List String) (k : Nat) (T T' : RouteTree),
      buildTreeGo k pats T = .ok T' → Fresh k T → Fresh (k + pats.length) T' := by
  intro pats
  induction pats with
  | nil =>
    intro k T T' h hf
    cases h
    simpa using hf
  | cons p rest ih =>
    intro k T T' h hf
    unfold buildTreeGo at h
    split at h
    · rename_i T1 h1
      have hf1 : Fresh (k + 1) T1 := fresh_insert k (splitFilter p) T T1 h1 hf
      have := ih (k + 1) T1 T' h hf1
      have heq : k + 1 + rest.length = k + (p :: rest).length := by
        simp [List.length_cons]
        omega
      rw [heq] at this
      exact this
    · cases h

/-- Folding `insert_walkT` over the insertion sequence: the walk of the
final tree is the first match among the inserted patterns, refined on top of
the walk of the starting tree. -/
theorem buildGo_walkT :
    ∀ (pats : List String) (k : Nat) (T T' : RouteTree) (segs : List String),
      buildTreeGo k pats T = .ok T' →
      Fresh k T →
      (∀ p ∈ pats, trailingOptOnly (splitFilter p) = true) →
      noTie T' segs = true →
      noTie T segs = true ∧
      walkT T' segs = orElseN (walkT T segs)
        (firstMatchFrom k (pats.map splitFilter) segs) := by
  intro pats
  induction pats with
  | nil =>
    intro k T T' segs h hf _ hnt
    cases h
    exact ⟨hnt, (orElseN_none_right _).symm⟩
  | cons p rest ih =>
    intro k T T' segs h hf hcond hnt
    unfold buildTreeGo at h
    split at h
    · rename_i T1 h1
      have hf1 : Fresh (k + 1) T1 := fresh_insert k (splitFilter p) T T1 h1 hf
      obtain ⟨hnt1, hw1⟩ := ih (k + 1) T1 T' segs h hf1
        (fun q hq => hcond q (List.mem_cons_of_mem _ hq)) hnt
      obtain ⟨hnt0, hw0⟩ := insert_walkT k (splitFilter p) T T1 segs h1 hf
        (hcond p (List.mem_cons_self _ _)) hnt1
      refine ⟨hnt0, ?_⟩
      have hfm : firstMatchFrom k (splitFilter p :: List.map splitFilter rest) segs =
          orElseN (if matchesB (splitFilter p) segs = true then some k else none)
            (firstMatchFrom (k + 1) (List.map splitFilter rest) segs) := by
        by_cases hm : matchesB (splitFilter p) segs = true
        · conv_lhs => unfold firstMatchFrom
          simp [hm, orElseN]
        · conv_lhs => unfold firstMatchFrom
          simp [hm, orElseN]
      rw [hw1, hw0, orElseN_assoc, List.map_cons, hfm]
    · cases h

/-- The walk of a constructed route tree along given segments reaches
exactly the first pattern (in registration order) matching the segments. -/
theorem buildTree_walkT (pats : List String) (tree : RouteTree)
    (segs : List String) (h : buildTree pats = .ok tree)
    (hcond : ∀ p ∈ pats, trailingOptOnly (splitFilter p) = true)
    (hnt : noTie tree segs = true) :
    walkT tree segs = firstMatchFrom 0 (pats.map splitFilter) segs := by
  unfold buildTree at h
  split at h
  · cases h
  · rename_i first rest
    split at h
    · rename_i hfirst
      have hf0 : Fresh 1 (RouteTree.mk (some 0) [] none) := by
        apply fresh_mk
        · intro j hj
          cases hj
          exact Nat.lt_succ_self 0
        · intro p c hmem
          cases hmem
        · intro k o c hd
          cases hd
      obtain ⟨hnt0, hw⟩ := buildGo_walkT rest 1 _ tree segs h hf0
        (fun q hq => hcond q (List.mem_cons_of_mem _ hq)) hnt
      rw [hw, hfirst, List.map_cons, show splitFilter "/" = [] from rfl]
      cases segs with
      | nil => rfl
      | cons s srest => rfl
    · cases h

/-- Every reachable terminal of a constructed route tree indexes a
registered route. -/
theorem buildTree_fresh (pats : List String) (tree : RouteTree)
    (h : buildTree pats = .ok tree) : Fresh pats.length tree := by
  unfold buildTree at h
  split at h
  · cases h
  · rename_i first rest
    split at h
    · have hf0 : Fresh 1 (RouteTree.mk (some 0) [] none) := by
        apply fresh_mk
        · intro j hj
          cases hj
          exact Nat.lt_succ_self 0
        · intro p c hmem
          cases hmem
        · intro k o c hd
          cases hd
      have := buildGo_fresh rest 1 _ tree h hf0
      have heq : 1 + rest.length = (first :: rest).length := by
        simp [List.length_cons]
        omega
      rw [heq] at this
      exact this
    · cases h

theorem firstMatchFrom_le (pl : List (List String)) :
    ∀ (k i : Nat) (segs : List String),
      firstMatchFrom k pl segs = some i → k ≤ i := by
  induction pl with
  | nil => intro k i segs h; cases h
  | cons parts rest ih =>
    intro k i segs h
    unfold firstMatchFrom at h
    by_cases hm : matchesB parts segs = true
    · rw [if_pos hm] at h
      cases h
      exact Nat.le_refl _
    · rw [if_neg hm] at h
      exact Nat.le_of_succ_le (ih (k + 1) i segs h)

theorem firstMatchFrom_some (pl : List (List String)) :
    ∀ (k i : Nat) (segs : List String),
      firstMatchFrom k pl segs = some i →
      ∃ parts, pl.get? (i - k) = some parts ∧ matchesB parts segs = true := by
  induction pl with
  | nil => intro k i segs h; cases h
  | cons parts rest ih =>
    intro k i segs h
    unfold firstMatchFrom at h
    by_cases hm : matchesB parts segs = true
    · rw [if_pos hm] at h
      cases h
      exact ⟨parts, by simp, hm⟩
    · rw [if_neg hm] at h
      obtain ⟨parts2, hget, hm2⟩ := ih (k + 1) i segs h
      have hk : k + 1 ≤ i := firstMatchFrom_le rest (k + 1) i segs h
      have heq : i - k = (i - (k + 1)) + 1 := by omega
      refine ⟨parts2, ?_, hm2⟩
      rw [heq]
      simpa using hget

theorem firstMatchFrom_none (pl : List (List String)) :
    ∀ (k : Nat) (segs : List String),
      firstMatchFrom k pl segs = none →
      ∀ parts ∈ pl, matchesB parts segs = false := by
  induction pl with
  | nil => intro k segs _ parts hmem; cases hmem
  | cons p rest ih =>
    intro k segs h parts hmem
    unfold firstMatchFrom at h
    by_cases hm : matchesB p segs = true
    · rw [if_pos hm] at h
      cases h
    · rw [if_neg hm] at h
      rcases List.mem_cons.mp hmem with h2 | h2
      · subst h2
        cases hx : matchesB parts segs
        · rfl
        · exact absurd hx hm
      · exact ih (k + 1) segs h parts h2

theorem matchPatternGo_none_of_matchesB_false (parts segs : List String)
    (h : matchesB parts segs = false) :
    matchPatternGo parts segs [] = none := by
  cases hx : matchPatternGo parts segs [] with
  | none => rfl
  | some v =>
    have hs := matchPatternGo_isSome parts segs []
    rw [hx, h] at hs
    cases hs

theorem matchPatternGo_some_of_matchesB_true (parts segs : List String)
    (h : matchesB parts segs = true) :
    ∃ prms, matchPatternGo parts segs [] = some prms := by
  cases hx : matchPatternGo parts segs [] with
  | none =>
    have hs := matchPatternGo_isSome parts segs []
    rw [hx, h] at hs
    cases hs
  | some v => exact ⟨v, rfl⟩

/-- Bridge between the linear matcher (`MatchRoute` over route specs) and
the positional first match over the shared pattern parts. -/
theorem matchRoute_firstMatch {M : Type u} (path : String) (segs : List String)
    (hpath : SplitPath path = segs) :
    ∀ (routes : List (Route M)) (k : Nat),
      (∀ p ∈ routes.map Route.path, SplitPath p = splitFilter p) →
      (firstMatchFrom k (routes.map (fun r => splitFilter r.path)) segs = none →
        MatchRoute (routes.map toSpec) path = none) ∧
      (∀ i, firstMatchFrom k (routes.map (fun r => splitFilter r.path)) segs = some i →
        ∃ route prms, routes.get? (i - k) = some route ∧
          matchPatternGo (splitFilter route.path) segs [] = some prms ∧
          MatchRoute (routes.map toSpec) path = some (toSpec route, prms)) := by
  intro routes
  induction routes with
  | nil =>
    intro k _
    exact ⟨fun _ => rfl, fun i h => by cases h⟩
  | cons r rest ih =>
    intro k hsp
    have hrpath : SplitPath r.path = splitFilter r.path := by
      apply hsp
      rw [List.map_cons]
      exact List.mem_cons_self _ _
    have hsp2 : ∀ p ∈ rest.map Route.path, SplitPath p = splitFilter p := by
      intro p hp
      apply hsp
      rw [List.map_cons]
      exact List.mem_cons_of_mem _ hp
    have hmp : MatchPattern (toSpec r).pattern path =
        matchPatternGo (splitFilter r.path) segs [] := by
      unfold MatchPattern
      rw [hpath]
      rw [show (toSpec r).pattern = r.path from rfl, hrpath]
    constructor
    · intro h
      rw [List.map_cons] at h
      unfold firstMatchFrom at h
      by_cases hm : matchesB (splitFilter r.path) segs = true
      · rw [if_pos hm] at h
        cases h
      · rw [if_neg hm] at h
        rw [List.map_cons]
        unfold MatchRoute
        have hnone : MatchPattern (toSpec r).pattern path = none := by
          rw [hmp]
          exact matchPatternGo_none_of_matchesB_false _ _
            (by cases hx : matchesB (splitFilter r.path) segs
                · rfl
                · exact absurd hx hm)
        rw [hnone]
        exact (ih (k + 1) hsp2).1 h
    · intro i h
      rw [List.map_cons] at h
      unfold firstMatchFrom at h
      by_cases hm : matchesB (splitFilter r.path) segs = true
      · rw [if_pos hm] at h
        cases h
        obtain ⟨prms, hprms⟩ := matchPatternGo_some_of_matchesB_true _ _ hm
        refine ⟨r, prms, by simp, hprms, ?_⟩
        rw [List.map_cons]
        unfold MatchRoute
        rw [hmp, hprms]
      · rw [if_neg hm] at h
        obtain ⟨route, prms, hget, hmm2, hmr⟩ := (ih (k + 1) hsp2).2 i h
        have hk : k + 1 ≤ i := firstMatchFrom_le _ (k + 1) i segs h
        have heq : i - k = (i - (k + 1)) + 1 := by omega
        refine ⟨route, prms, ?_, hmm2, ?_⟩
        · rw [heq]
          simpa using hget
        · rw [List.map_cons]
          unfold MatchRoute
          have hnone : MatchPattern (toSpec r).pattern path = none := by
            rw [hmp]
            exact matchPatternGo_none_of_matchesB_false _ _
              (by cases hx : matchesB (splitFilter r.path) segs
                  · rfl
                  · exact absurd hx hm)
          rw [hnone]
          exact hmr

/-! ### Canonical paths: splitting `mkPath segs` recovers `segs` -/

theorem no_slash_of_contains_false (l : List Char) (h : l.contains '/' = false) :
    ∀ c ∈ l, c ≠ '/' := by
  induction l with
  | nil => intro c hc; cases hc
  | cons a r ih =>
    intro c hc hceq
    rw [List.contains_cons] at h
    rcases List.mem_cons.mp hc with h2 | h2
    · subst h2
      subst hceq
      simp at h
    · subst hceq
      have := ih (by
        cases hx : r.contains '/'
        · rfl
        · rw [hx] at h; simp at h) '/' h2
      exact this rfl

theorem validSeg_bne (s : String) (h : validSeg s = true) : (s != "") = true := by
  unfold validSeg at h
  cases hx : (s != "")
  · rw [hx] at h; simp at h
  · rfl

theorem validSeg_no_slash (s : String) (h : validSeg s = true) :
    s.data.contains '/' = false := by
  unfold validSeg at h
  cases hx : s.data.contains '/'
  · rfl
  · rw [hx] at h; simp at h

theorem data_ne_nil_of_bne (s : String) (h : (s != "") = true) : s.data ≠ [] := by
  intro hd
  cases s with
  | mk d =>
    have hdd : d = [] := hd
    subst hdd
    simp at h

theorem splitCharsOnSlash_no_slash (l : List Char) (h : l.contains '/' = false) :
    splitCharsOnSlash l = [l] := by
  induction l with
  | nil => rfl
  | cons c rest ih =>
    rw [List.contains_cons] at h
    have hc : c ≠ '/' := by
      intro hc
      subst hc
      simp at h
    have hrest : rest.contains '/' = false := by
      cases hx : rest.contains '/'
      · rfl
      · rw [hx] at h; simp at h
    conv_lhs => unfold splitCharsOnSlash
    rw [if_neg hc, ih hrest]

theorem splitCharsOnSlash_append_slash (l m : List Char)
    (h : l.contains '/' = false) :
    splitCharsOnSlash (l ++ '/' :: m) = l :: splitCharsOnSlash m := by
  induction l with
  | nil =>
    show splitCharsOnSlash ('/' :: m) = [] :: splitCharsOnSlash m
    conv_lhs => unfold splitCharsOnSlash
    rw [if_pos rfl]
  | cons c rest ih =>
    rw [List.contains_cons] at h
    have hc : c ≠ '/' := by
      intro hc
      subst hc
      simp at h
    have hrest : rest.contains '/' = false := by
      cases hx : rest.contains '/'
      · rfl
      · rw [hx] at h; simp at h
    show splitCharsOnSlash (c :: (rest ++ '/' :: m)) = (c :: rest) :: splitCharsOnSlash m
    conv_lhs => unfold splitCharsOnSlash
    rw [if_neg hc, ih hrest]

theorem joinSlash_data_cons (x y : String) (rest : List String) :
    (joinSlash (x :: y :: rest)).data = x.data ++ '/' :: (joinSlash (y :: rest)).data := by
  show (x ++ "/" ++ joinSlash (y :: rest)).data = _
  rw [String.data_append, String.data_append, List.append_assoc]
  rfl

theorem joinSlash_data_ne_nil (x : String) (rest : List String)
    (hx : x.data ≠ []) : (joinSlash (x :: rest)).data ≠ [] := by
  cases rest with
  | nil => exact hx
  | cons y rr =>
    rw [joinSlash_data_cons]
    intro hcontra
    rcases List.append_eq_nil.mp hcontra with ⟨_, h2⟩
    cases h2

theorem splitChars_joinSlash :
    ∀ (segs : List String), (∀ s ∈ segs, validSeg s = true) → segs ≠ [] →
      (splitCharsOnSlash (joinSlash segs).data).map String.mk = segs := by
  intro segs
  induction segs with
  | nil => intro _ hne; cases hne rfl
  | cons x rest ih =>
    intro hv _
    have hx : x.data.contains '/' = false :=
      validSeg_no_slash x (hv x (List.mem_cons_self _ _))
    cases rest with
    | nil =>
      show (splitCharsOnSlash x.data).map String.mk = [x]
      rw [splitCharsOnSlash_no_slash x.data hx]
      rfl
    | cons y rr =>
      rw [joinSlash_data_cons x y rr, splitCharsOnSlash_append_slash _ _ hx,
        List.map_cons]
      rw [ih (fun s hs => hv s (List.mem_cons_of_mem _ hs)) (by simp)]

theorem mkPath_data (segs : List String) :
    (mkPath segs).data = '/' :: (joinSlash segs).data := by
  unfold mkPath
  rw [String.data_append]
  rfl

theorem jsSplit_mkPath (segs : List String)
    (hv : ∀ s ∈ segs, validSeg s = true) (hne : segs ≠ []) :
    jsSplitSlash (mkPath segs) = "" :: segs := by
  unfold jsSplitSlash
  rw [mkPath_data]
  have h2 : splitCharsOnSlash ('/' :: (joinSlash segs).data) =
      [] :: splitCharsOnSlash (joinSlash segs).data := by
    conv_lhs => unfold splitCharsOnSlash
    rw [if_pos rfl]
  rw [h2, List.map_cons, splitChars_joinSlash segs hv hne]

theorem splitFilter_mkPath (segs : List String)
    (hv : ∀ s ∈ segs, validSeg s = true) (hne : segs ≠ []) :
    splitFilter (mkPath segs) = segs := by
  unfold splitFilter
  rw [jsSplit_mkPath segs hv hne, List.filter_cons]
  have hkeep : ∀ s ∈ segs, (s != "") = true := fun s hs => validSeg_bne s (hv s hs)
  simp only [show (("" : String) != "") = false from rfl, Bool.false_eq_true,
    if_false]
  exact List.filter_eq_self.mpr hkeep

theorem joinSlash_getLast_no_slash :
    ∀ (segs : List String), (∀ s ∈ segs, validSeg s = true) → segs ≠ [] →
      ∀ c, (joinSlash segs).data.getLast? = some c → c ≠ '/' := by
  intro segs
  induction segs with
  | nil => intro _ hne; cases hne rfl
  | cons x rest ih =>
    intro hv _ c hlast
    cases rest with
    | nil =>
      have hmem : c ∈ x.data := by
        have hm : c ∈ x.data.getLast? := hlast ▸ rfl
        obtain ⟨hne2, heq⟩ := List.mem_getLast?_eq_getLast hm
        rw [heq]
        exact List.getLast_mem hne2
      exact no_slash_of_contains_false x.data
        (validSeg_no_slash x (hv x (List.mem_cons_self _ _))) c hmem
    | cons y rr =>
      have hylen : y.data ≠ [] :=
        data_ne_nil_of_bne y (validSeg_bne y (hv y (by simp)))
      have hjne : (joinSlash (y :: rr)).data ≠ [] := joinSlash_data_ne_nil y rr hylen
      rw [joinSlash_data_cons x y rr,
        List.getLast?_append_of_ne_nil x.data (by simp)] at hlast
      rw [show ('/' :: (joinSlash (y :: rr)).data) =
        ['/'] ++ (joinSlash (y :: rr)).data from rfl,
        List.getLast?_append_of_ne_nil ['/'] hjne] at hlast
      exact ih (fun s hs => hv s (List.mem_cons_of_mem _ hs)) (by simp) c hlast

theorem dropWhile_slash_of_head (l : List Char)
    (h : ∀ c, l.head? = some c → c ≠ '/') :
    l.dropWhile (fun c => c = '/') = l := by
  cases l with
  | nil => rfl
  | cons c r =>
    rw [List.dropWhile_cons, if_neg]
    simp only [decide_eq_true_eq]
    exact h c rfl

theorem goTrimSlashes_mkPath (x : String) (rest : List String)
    (hv : ∀ s ∈ x :: rest, validSeg s = true) :
    goTrimSlashes (mkPath (x :: rest)) = joinSlash (x :: rest) := by
  have hxne : x.data ≠ [] :=
    data_ne_nil_of_bne x (validSeg_bne x (hv x (List.mem_cons_self _ _)))
  have hhead : ∀ c, (joinSlash (x :: rest)).data.head? = some c → c ≠ '/' := by
    cases rest with
    | nil =>
      intro c hc
      exact no_slash_of_contains_false x.data
        (validSeg_no_slash x (hv x (List.mem_cons_self _ _))) c
        (List.mem_of_mem_head? hc)
    | cons y rr =>
      rw [joinSlash_data_cons x y rr]
      obtain ⟨c0, cs, hx⟩ := List.exists_cons_of_ne_nil hxne
      rw [hx]
      intro c hc
      rw [List.cons_append] at hc
      cases hc
      have : c0 ∈ x.data := by rw [hx]; exact List.mem_cons_self _ _
      exact no_slash_of_contains_false x.data
        (validSeg_no_slash x (hv x (List.mem_cons_self _ _))) c0 this
  have hlast : ∀ c, (joinSlash (x :: rest)).data.reverse.head? = some c → c ≠ '/' := by
    intro c hc
    rw [List.head?_reverse] at hc
    exact joinSlash_getLast_no_slash (x :: rest) hv (by simp) c hc
  unfold goTrimSlashes
  rw [mkPath_data]
  rw [show List.dropWhile (fun c => c = '/') ('/' :: (joinSlash (x :: rest)).data) =
    List.dropWhile (fun c => c = '/') (joinSlash (x :: rest)).data by
      rw [List.dropWhile_cons, if_pos (by simp)]]
  rw [dropWhile_slash_of_head _ hhead, dropWhile_slash_of_head _ hlast,
    List.reverse_reverse]

theorem joinSlash_ne_empty (x : String) (rest : List String)
    (hx : x.data ≠ []) : joinSlash (x :: rest) ≠ "" := by
  intro h
  have := congrArg String.data h
  exact joinSlash_data_ne_nil x rest hx this

theorem SplitPath_mkPath (segs : List String)
    (hv : ∀ s ∈ segs, validSeg s = true) :
    SplitPath (mkPath segs) = segs := by
  cases segs with
  | nil => rfl
  | cons x rest =>
    have hxne : x.data ≠ [] :=
      data_ne_nil_of_bne x (validSeg_bne x (hv x (List.mem_cons_self _ _)))
    show (if goTrimSlashes (mkPath (x :: rest)) = "" then ([] : List String)
      else (splitCharsOnSlash (goTrimSlashes (mkPath (x :: rest))).data).map
        String.mk) = x :: rest
    rw [goTrimSlashes_mkPath x rest hv, if_neg (joinSlash_ne_empty x rest hxne)]
    exact splitChars_joinSlash (x :: rest) hv (by simp)

theorem mkPath_ne_root (x : String) (rest : List String) (hx : x.data ≠ []) :
    mkPath (x :: rest) ≠ "/" := by
  intro h
  have hd := congrArg String.data h
  rw [mkPath_data] at hd
  have : (joinSlash (x :: rest)).data = [] := by
    have := List.tail_eq_of_cons_eq hd
    simpa using this
  exact joinSlash_data_ne_nil x rest hx this

/-! ### Binding agreement between findParams and the linear matcher -/

theorem not_mem_of_contains_false (l : List String) (x : String)
    (h : l.contains x = false) : x ∉ l := by
  induction l with
  | nil => intro hc; cases hc
  | cons a r ih =>
    intro hc
    rw [List.contains_cons] at h
    rcases List.mem_cons.mp hc with h2 | h2
    · subst h2
      simp at h
    · have hr : r.contains x = false := by
        cases hx : r.contains x
        · rfl
        · rw [hx] at h; simp at h
      exact ih hr h2

theorem dynNames_cons_dyn (pp : String) (rest : List String)
    (hc : startsWithColon pp = true) :
    dynNames (pp :: rest) = tsParamName pp :: dynNames rest := by
  simp [dynNames, List.filter_cons, hc]

theorem dynNames_cons_lit (pp : String) (rest : List String)
    (hc : startsWithColon pp = false) :
    dynNames (pp :: rest) = dynNames rest := by
  simp [dynNames, List.filter_cons, hc]

theorem distinctList_cons (x : String) (l : List String)
    (h : distinctList (x :: l) = true) :
    l.contains x = false ∧ distinctList l = true := by
  unfold distinctList at h
  constructor
  · cases hx : l.contains x
    · rfl
    · rw [hx] at h; simp at h
  · cases hx : distinctList l
    · rw [hx] at h; simp at h
    · rfl

theorem goParamName_eq_tsParamName (pp : String)
    (hc : startsWithColon pp = true) : goParamName pp = tsParamName pp := by
  cases pp with
  | mk d =>
    cases d with
    | nil => cases hc
    | cons c tl =>
      have hcc : c = ':' := by
        unfold startsWithColon at hc
        simpa using hc
      subst hcc
      have h1 : goTrimColon (String.mk (':' :: tl)) = String.mk tl := rfl
      have h4 : endsWithQm (String.mk (':' :: tl)) = endsWithQm (String.mk tl) := by
        cases tl with
        | nil => rfl
        | cons c2 tl2 =>
          unfold endsWithQm
          rw [show (String.mk (':' :: c2 :: tl2)).data = ':' :: c2 :: tl2 from rfl,
            show (String.mk (c2 :: tl2)).data = c2 :: tl2 from rfl,
            List.getLast?_cons_cons]
      unfold goParamName
      rw [h1]
      unfold goTrimQm tsParamName
      rw [h4]
      by_cases hq : endsWithQm (String.mk tl) = true
      · rw [if_pos hq, if_pos hq]
        rfl
      · rw [if_neg hq, if_neg hq]
        rfl

/-- When a pattern with trailing-only optionals and distinct parameter names
matches, `findParams` computes exactly the linear matcher's bindings, lifted
to defined values, followed by at most the absent trailing optional bound to
`undefined`. -/
theorem findParamsGo_of_match :
    ∀ (parts segs : List String) (accm prms : List (String × String)),
      matchPatternGo parts segs accm = some prms →
      trailingOptOnly parts = true →
      distinctList (dynNames parts) = true →
      (∀ n ∈ dynNames parts, lookupAssoc accm n = none) →
      ∃ tail, findParamsGo parts segs (liftParams accm) = liftParams prms ++ tail ∧
        ∀ kv ∈ tail, kv.2 = (none : Option String) := by
  intro parts
  induction parts with
  | nil =>
    intro segs accm prms h _ _ _
    cases segs with
    | nil =>
      unfold matchPatternGo at h
      simp at h
      subst h
      exact ⟨[], by rw [List.append_nil]; rfl, fun kv hkv => absurd hkv (List.not_mem_nil kv)⟩
    | cons s srest =>
      unfold matchPatternGo at h
      simp at h
  | cons pp rest ih =>
    intro segs accm prms h htrail hdist hacc
    by_cases hc : startsWithColon pp = true
    · have hname := goParamName_eq_tsParamName pp hc
      rw [dynNames_cons_dyn pp rest hc] at hdist hacc
      obtain ⟨hcont, hdistR⟩ := distinctList_cons _ _ hdist
      cases segs with
      | cons s srest =>
        unfold matchPatternGo at h
        rw [if_pos hc, hname] at h
        have haccR : ∀ n ∈ dynNames rest,
            lookupAssoc (setAssoc accm (tsParamName pp) s) n = none := by
          intro n hn
          have hne : n ≠ tsParamName pp := by
            intro heq
            exact not_mem_of_contains_false _ _ hcont (heq ▸ hn)
          rw [lookupAssoc_setAssoc_ne accm (tsParamName pp) n s hne]
          exact hacc n (List.mem_cons_of_mem _ hn)
        obtain ⟨tail, htail, htnone⟩ := ih srest (setAssoc accm (tsParamName pp) s)
          prms h (trailingOptOnly_tail pp rest htrail) hdistR haccR
        refine ⟨tail, ?_, htnone⟩
        unfold findParamsGo
        rw [if_pos hc]
        rw [show ((s :: srest).head? : Option String) = some s from rfl,
          show (s :: srest).tail = srest from rfl, ← liftParams_setAssoc]
        exact htail
      | nil =>
        unfold matchPatternGo at h
        rw [if_pos hc] at h
        replace h : (if endsWithQm pp = true then matchPatternGo rest [] accm
          else none) = some prms := h
        by_cases hq : endsWithQm pp = true
        · rw [if_pos hq] at h
          have hrest : rest = [] := by
            cases rest with
            | nil => rfl
            | cons q rr =>
              have hopt := trailingOptOnly_head pp q rr htrail
              rw [isOptPart, hc, hq] at hopt
              cases hopt
          subst hrest
          replace h : some accm = some prms := h
          have hprms : accm = prms := Option.some.inj h
          have hlnone : lookupAssoc (liftParams accm) (tsParamName pp) = none := by
            rw [lookupAssoc_liftParams]
            rw [hacc (tsParamName pp) (List.mem_cons_self _ _)]
            rfl
          refine ⟨[(tsParamName pp, none)], ?_, ?_⟩
          · unfold findParamsGo
            rw [if_pos hc]
            show setAssoc (liftParams accm) (tsParamName pp) none =
              liftParams prms ++ [(tsParamName pp, none)]
            rw [← hprms]
            exact setAssoc_of_lookup_none _ _ _ hlnone
          · intro kv hkv
            rw [List.mem_singleton.mp hkv]
        · rw [if_neg hq] at h
          exact Option.noConfusion h
    · have hc2 : startsWithColon pp = false := by
        cases hx : startsWithColon pp
        · rfl
        · exact absurd hx hc
      rw [dynNames_cons_lit pp rest hc2] at hdist hacc
      cases segs with
      | nil =>
        unfold matchPatternGo at h
        rw [if_neg hc] at h
        replace h : (none : Option (List (String × String))) = some prms := h
        exact Option.noConfusion h
      | cons s srest =>
        unfold matchPatternGo at h
        rw [if_neg hc] at h
        replace h : (if s = pp then matchPatternGo rest srest accm else none) =
          some prms := h
        by_cases hsp : s = pp
        · rw [if_pos hsp] at h
          obtain ⟨tail, htail, htnone⟩ := ih srest accm prms h
            (trailingOptOnly_tail pp rest htrail) hdist hacc
          refine ⟨tail, ?_, htnone⟩
          unfold findParamsGo
          rw [if_neg hc]
          exact htail
        · rw [if_neg hsp] at h
          exact Option.noConfusion h

/-! ### Composing find with the walk characterisation -/

theorem addRouteGo_terminal (idx : Nat) (parts : List String) (T T' : RouteTree)
    (j : Nat) (h : addRouteGo idx parts T = .ok T') (hterm : T.terminal = some j) :
    T'.terminal = some j := by
  cases parts with
  | nil =>
    unfold addRouteGo at h
    split at h
    · rename_i j2 hterm2
      split at h
      · rename_i hji
        cases h
        rw [withTerminal_terminal]
        have hj2 : j2 = j := Option.some.inj (hterm2.symm.trans hterm)
        rw [← hji, hj2]
      · cases h
    · rename_i hterm2
      exact absurd (hterm.symm.trans hterm2) (by simp)
  | cons part rest =>
    unfold addRouteGo at h
    split at h
    · split at h
      · split at h
        · split at h
          · cases h
            rw [terminal_mk]
            exact optTerminal_opt_some idx j part T hterm
          · cases h
        · cases h
      · split at h
        · cases h
          rw [terminal_mk]
          exact optTerminal_opt_some idx j part T hterm
        · cases h
    · split at h
      · cases h
        rw [terminal_mk]
        exact hterm
      · cases h

theorem buildTreeGo_terminal :
    ∀ (pats : List String) (k : Nat) (T T' : RouteTree) (j : Nat),
      buildTreeGo k pats T = .ok T' → T.terminal = some j →
      T'.terminal = some j := by
  intro pats
  induction pats with
  | nil =>
    intro k T T' j h hterm
    cases h
    exact hterm
  | cons p rest ih =>
    intro k T T' j h hterm
    unfold buildTreeGo at h
    split at h
    · rename_i T1 h1
      exact ih (k + 1) T1 T' j h
        (addRouteGo_terminal k (splitFilter p) T T1 j h1 hterm)
    · cases h

/-- A constructed tree's root stays terminal for the first route, and the
first route pattern is `"/"`. -/
theorem buildTree_shape (pats : List String) (tree : RouteTree)
    (h : buildTree pats = .ok tree) :
    pats.head? = some "/" ∧ tree.terminal = some 0 := by
  unfold buildTree at h
  split at h
  · cases h
  · rename_i first rest
    split at h
    · rename_i hfirst
      refine ⟨by rw [hfirst]; rfl, ?_⟩
      exact buildTreeGo_terminal rest 1 _ tree 0 h rfl
    · cases h

/-- On a freshly constructed router and a canonical non-root path, `find`
computes the walk over the route tree followed by parameter extraction. -/
theorem find_canonical {M : Type u} (routes : List (Route M)) (tree : RouteTree)
    (segs : List String) (hv : ∀ s ∈ segs, validSeg s = true) (hne : segs ≠ []) :
    ((Router.mk routes tree [] : Router M).find (mkPath segs)).1 =
      (match walkT tree segs with
      | some i =>
        (match routes.get? i with
        | some route => some (route.factory (findParams route.path (mkPath segs)))
        | none => none)
      | none => none) := by
  obtain ⟨x, xrest, hxr⟩ := List.exists_cons_of_ne_nil hne
  have hxne : x.data ≠ [] := by
    apply data_ne_nil_of_bne
    apply validSeg_bne
    apply hv
    rw [hxr]
    exact List.mem_cons_self _ _
  have hroot : mkPath segs ≠ "/" := by
    rw [hxr]
    exact mkPath_ne_root x xrest hxne
  unfold Router.find
  rw [show lookupAssoc ([] : List (String × M)) (mkPath segs) = none from rfl]
  rw [if_neg hroot]
  rw [show (Router.mk routes tree ([] : List (String × M))).tree = tree from rfl,
    show (Router.mk routes tree ([] : List (String × M))).routes = routes from rfl]
  rw [jsSplit_mkPath segs hv hne]
  rw [walkTree_cons_static (RouteTree.mk none [("", tree)] none) tree "" segs rfl]
  rcases hw : walkTree tree segs with _ | node
  · rw [show walkT tree segs = none by unfold walkT; rw [hw]; rfl]
  · rw [show walkT tree segs = node.terminal by unfold walkT; rw [hw]; rfl]
    rcases node with ⟨term, st, d⟩
    rcases term with _ | i
    · rfl
    · show (match routes.get? i with
        | some route =>
          (some (route.factory (findParams route.path (mkPath segs))),
            setAssoc ([] : List (String × M)) (mkPath segs)
              (route.factory (findParams route.path (mkPath segs))))
        | none => ((none : Option M), ([] : List (String × M)))).1 =
        (match routes.get? i with
        | some route => some (route.factory (findParams route.path (mkPath segs)))
        | none => none)
      rcases routes.get? i with _ | route
      · rfl
      · rfl

/-! ### Round-trip support: emission, self-matching and extraction -/

theorem lookupAssoc_append {α : Type u} (l1 l2 : List (String × α)) (k : String) :
    lookupAssoc (l1 ++ l2) k =
      (match lookupAssoc l1 k with
      | some v => some v
      | none => lookupAssoc l2 k) := by
  induction l1 with
  | nil => rfl
  | cons kv rest ih =>
    obtain ⟨a, b⟩ := kv
    by_cases h : a = k
    · simp [lookupAssoc, h]
    · simp only [List.cons_append, lookupAssoc, if_neg h]
      exact ih

theorem splitCharsOnSlash_ne_nil (l : List Char) : splitCharsOnSlash l ≠ [] := by
  cases l with
  | nil => simp [splitCharsOnSlash]
  | cons c rest =>
    unfold splitCharsOnSlash
    by_cases h : c = '/'
    · rw [if_pos h]
      simp
    · rw [if_neg h]
      rcases hsp : splitCharsOnSlash rest with _ | ⟨s, ss⟩ <;> simp

theorem splitCharsOnSlash_mem_no_slash :
    ∀ (l : List Char) (piece : List Char), piece ∈ splitCharsOnSlash l →
      piece.contains '/' = false := by
  intro l
  induction l with
  | nil =>
    intro piece hmem
    rcases List.mem_singleton.mp hmem with h
    rw [h]
    rfl
  | cons c rest ih =>
    intro piece hmem
    unfold splitCharsOnSlash at hmem
    by_cases h : c = '/'
    · rw [if_pos h] at hmem
      rcases List.mem_cons.mp hmem with h2 | h2
      · rw [h2]
        rfl
      · exact ih piece h2
    · rw [if_neg h] at hmem
      rcases hsp : splitCharsOnSlash rest with _ | ⟨s, ss⟩
      · exact absurd hsp (splitCharsOnSlash_ne_nil rest)
      · rw [hsp] at hmem
        rcases List.mem_cons.mp hmem with h2 | h2
        · rw [h2, List.contains_cons]
          have hs : s.contains '/' = false :=
            ih s (by rw [hsp]; exact List.mem_cons_self _ _)
          rw [hs, Bool.or_false]
          exact beq_eq_false_iff_ne.mpr (fun hcc => h hcc.symm)
        · exact ih piece (by rw [hsp]; exact List.mem_cons_of_mem _ h2)

/-- Every segment produced by the client-side split-and-filter is canonical:
non-empty and slash-free. -/
theorem splitFilter_valid (p : String) : ∀ s ∈ splitFilter p, validSeg s = true := by
  intro s hs
  unfold splitFilter at hs
  have hne := List.of_mem_filter hs
  have hmem := List.mem_of_mem_filter hs
  unfold jsSplitSlash at hmem
  obtain ⟨piece, hpiece, hmk⟩ := List.mem_map.mp hmem
  unfold validSeg
  rw [Bool.and_eq_true]
  constructor
  · exact hne
  · have hcontains : piece.contains '/' = false :=
      splitCharsOnSlash_mem_no_slash p.data piece hpiece
    rw [← hmk]
    simp only [show (String.mk piece).data = piece from rfl]
    rw [hcontains]
    rfl

/-- With every dynamic parameter provided truthy, the URL emission loop
emits the pattern with values substituted and never stops early. -/
theorem urlGo_all_truthy (routePath : String) (ps : List (String × String)) :
    ∀ (parts acc : List String),
      (∀ part ∈ parts, startsWithColon part = true →
        truthyStr (lookupAssoc ps (tsParamName part)) = true) →
      urlGo routePath ps parts acc = .ok ("/" ++ joinSlash (acc ++ emitParts ps parts)) := by
  intro parts
  induction parts with
  | nil =>
    intro acc _
    rw [show emitParts ps [] = [] from rfl, List.append_nil]
    rfl
  | cons part rest ih =>
    intro acc hall
    by_cases hc : startsWithColon part = true
    · have htr := hall part (List.mem_cons_self _ _) hc
      unfold urlGo
      rw [if_pos hc, if_pos htr]
      rw [ih (acc ++ [(lookupAssoc ps (tsParamName part)).getD ""])
        (fun q hq hqc => hall q (List.mem_cons_of_mem _ hq) hqc)]
      rw [show emitParts ps (part :: rest) =
        ((lookupAssoc ps (tsParamName part)).getD "") :: emitParts ps rest by
          unfold emitParts
          rw [List.map_cons, if_pos hc]]
      rw [List.append_assoc]
      rfl
    · unfold urlGo
      rw [if_neg hc]
      rw [ih (acc ++ [part]) (fun q hq hqc => hall q (List.mem_cons_of_mem _ hq) hqc)]
      rw [show emitParts ps (part :: rest) = part :: emitParts ps rest by
        unfold emitParts
        rw [List.map_cons, if_neg hc]]
      rw [List.append_assoc]
      rfl

/-- Extracting parameters from a pattern's own emitted segments binds each
dynamic name to its provided value, in pattern order. -/
theorem findParamsGo_emit (ps : List (String × String)) :
    ∀ (parts : List String) (accf : Params),
      distinctList (dynNames parts) = true →
      (∀ n ∈ dynNames parts, lookupAssoc accf n = none) →
      findParamsGo parts (emitParts ps parts) accf =
        accf ++ liftParams (dynBindings ps parts) := by
  intro parts
  induction parts with
  | nil =>
    intro accf _ _
    rw [show dynBindings ps [] = [] from rfl, show liftParams [] = [] from rfl,
      List.append_nil]
    rfl
  | cons part rest ih =>
    intro accf hdist hacc
    by_cases hc : startsWithColon part = true
    · rw [dynNames_cons_dyn part rest hc] at hdist hacc
      obtain ⟨hcont, hdistR⟩ := distinctList_cons _ _ hdist
      have hemit : emitParts ps (part :: rest) =
          ((lookupAssoc ps (tsParamName part)).getD "") :: emitParts ps rest := by
        unfold emitParts
        rw [List.map_cons, if_pos hc]
      rw [hemit]
      unfold findParamsGo
      rw [if_pos hc]
      rw [show (((lookupAssoc ps (tsParamName part)).getD "") ::
        emitParts ps rest).head? = some ((lookupAssoc ps (tsParamName part)).getD "")
        from rfl]
      rw [show (((lookupAssoc ps (tsParamName part)).getD "") ::
        emitParts ps rest).tail = emitParts ps rest from rfl]
      have haccname : lookupAssoc accf (tsParamName part) = none :=
        hacc (tsParamName part) (List.mem_cons_self _ _)
      rw [setAssoc_of_lookup_none accf (tsParamName part) _ haccname]
      have haccR : ∀ n ∈ dynNames rest,
          lookupAssoc (accf ++ [(tsParamName part,
            some ((lookupAssoc ps (tsParamName part)).getD ""))]) n = none := by
        intro n hn
        rw [lookupAssoc_append]
        rw [hacc n (List.mem_cons_of_mem _ hn)]
        have hne : n ≠ tsParamName part := by
          intro heq
          exact not_mem_of_contains_false _ _ hcont (heq ▸ hn)
        simp [lookupAssoc, hne, Ne.symm hne]
      rw [ih _ hdistR haccR]
      rw [show dynBindings ps (part :: rest) = (goParamName part,
        (lookupAssoc ps (tsParamName part)).getD "") :: dynBindings ps rest by
          unfold dynBindings
          rw [List.filter_cons, if_pos hc, List.map_cons]]
      rw [goParamName_eq_tsParamName part hc]
      rw [List.append_assoc]
      rfl
    · have hc2 : startsWithColon part = false := by
        cases hx : startsWithColon part
        · rfl
        · exact absurd hx hc
      rw [dynNames_cons_lit part rest hc2] at hdist hacc
      have hemit : emitParts ps (part :: rest) = part :: emitParts ps rest := by
        unfold emitParts
        rw [List.map_cons, if_neg hc]
      rw [hemit]
      unfold findParamsGo
      rw [if_neg hc]
      rw [show (part :: emitParts ps rest).tail = emitParts ps rest from rfl]
      rw [ih accf hdist hacc]
      rw [show dynBindings ps (part :: rest) = dynBindings ps rest by
        unfold dynBindings
        rw [List.filter_cons, if_neg (by rw [hc2]; exact fun hx => Bool.noConfusion hx)]]

theorem andE_left {a b : Bool} (h : (a && b) = true) : a = true := by
  cases a with
  | false => exact Bool.noConfusion h
  | true => rfl

theorem andE_right {a b : Bool} (h : (a && b) = true) : b = true := by
  cases a with
  | false => exact Bool.noConfusion h
  | true => exact h

theorem aligned_cons (p : String) (prest : List String) (s : String)
    (srest : List String) :
    aligned (p :: prest) (s :: srest) =
      ((startsWithColon p || decide (p = s)) && aligned prest srest) := rfl

/-- The segments emitted for a pattern are aligned with it. -/
theorem aligned_emitParts (ps : List (String × String)) :
    ∀ parts : List String, aligned parts (emitParts ps parts) = true := by
  intro parts
  induction parts with
  | nil => rfl
  | cons part rest ih =>
    by_cases hc : startsWithColon part = true
    · have hemit : emitParts ps (part :: rest) =
          ((lookupAssoc ps (tsParamName part)).getD "") :: emitParts ps rest := by
        unfold emitParts
        rw [List.map_cons, if_pos hc]
      rw [hemit, aligned_cons, hc, Bool.true_or, Bool.true_and]
      exact ih
    · have hemit : emitParts ps (part :: rest) = part :: emitParts ps rest := by
        unfold emitParts
        rw [List.map_cons, if_neg hc]
      have hc2 : startsWithColon part = false := by
        cases hx : startsWithColon part
        · rfl
        · exact absurd hx hc
      have hd : decide (part = part) = true := decide_eq_true rfl
      rw [hemit, aligned_cons, hc2, Bool.false_or, hd, Bool.true_and]
      exact ih

/-- Extracting parameters from a pattern's own emitted segments performs, in
pattern order, exactly the assignments of each dynamic name to its provided
value (repeated names overwrite, as in the source's object assignment). -/
theorem findParamsGo_emit_fold (ps : List (String × String)) :
    ∀ (parts : List String) (accf : Params),
      findParamsGo parts (emitParts ps parts) accf =
        (liftParams (dynBindings ps parts)).foldl
          (fun m kv => setAssoc m kv.1 kv.2) accf := by
  intro parts
  induction parts with
  | nil => intro accf; rfl
  | cons part rest ih =>
    intro accf
    by_cases hc : startsWithColon part = true
    · have hemit : emitParts ps (part :: rest) =
          ((lookupAssoc ps (tsParamName part)).getD "") :: emitParts ps rest := by
        unfold emitParts
        rw [List.map_cons, if_pos hc]
      rw [hemit]
      unfold findParamsGo
      rw [if_pos hc]
      rw [show (((lookupAssoc ps (tsParamName part)).getD "") ::
        emitParts ps rest).head? = some ((lookupAssoc ps (tsParamName part)).getD "")
        from rfl]
      rw [show (((lookupAssoc ps (tsParamName part)).getD "") ::
        emitParts ps rest).tail = emitParts ps rest from rfl]
      rw [ih (setAssoc accf (tsParamName part)
        (some ((lookupAssoc ps (tsParamName part)).getD "")))]
      rw [show dynBindings ps (part :: rest) = (goParamName part,
        (lookupAssoc ps (tsParamName part)).getD "") :: dynBindings ps rest by
          unfold dynBindings
          rw [List.filter_cons, if_pos hc, List.map_cons]]
      rw [goParamName_eq_tsParamName part hc]
      rfl
    · have hc2 : startsWithColon part = false := by
        cases hx : startsWithColon part
        · rfl
        · exact absurd hx hc
      have hemit : emitParts ps (part :: rest) = part :: emitParts ps rest := by
        unfold emitParts
        rw [List.map_cons, if_neg hc]
      rw [hemit]
      unfold findParamsGo
      rw [if_neg hc]
      rw [show (part :: emitParts ps rest).tail = emitParts ps rest from rfl]
      rw [ih accf]
      rw [show dynBindings ps (part :: rest) = dynBindings ps rest by
        unfold dynBindings
        rw [List.filter_cons, if_neg (by rw [hc2]; exact fun hx => Bool.noConfusion hx)]]

/-- Self-walk of a single insertion: on a path aligned with the inserted
pattern, and free of static/dynamic ties in the new tree, the walk of the
new tree retraces the insertion path and ends on the inserted index (the
insertion succeeded, so the final node was not claimed by another route). -/
theorem insert_selfWalk :
    ∀ (parts : List String) (T T' : RouteTree) (idx : Nat) (segs : List String),
      addRouteGo idx parts T = .ok T' → aligned parts segs = true →
      noTie T' segs = true → walkT T' segs = some idx := by
  intro parts
  induction parts with
  | nil =>
    intro T T' idx segs h hal hnt
    cases segs with
    | cons s srest => exact Bool.noConfusion hal
    | nil =>
      rw [walkT_nil]
      unfold addRouteGo at h
      split at h
      · rename_i j hterm
        split at h
        · injection h with h2
          subst h2
          rw [withTerminal_terminal]
        · exact Except.noConfusion h
      · injection h with h2
        subst h2
        rw [withTerminal_terminal]
  | cons p prest ih =>
    intro T T' idx segs h hal hnt
    cases segs with
    | nil => exact Bool.noConfusion hal
    | cons s srest =>
      rw [aligned_cons] at hal
      unfold addRouteGo at h
      by_cases hc : startsWithColon p = true
      · rw [if_pos hc] at h
        split at h
        · rename_i k o child hdy
          split at h
          · split at h
            · rename_i child2 hrec
              injection h with h2
              subst h2
              rcases hls : lookupAssoc T.statics s with _ | c
              · have hls2 : lookupAssoc (RouteTree.mk (optTerminal idx p T)
                    T.statics (some (k, o, child2))).statics s = none := hls
                have hnt2 : noTie child2 srest = true := by
                  rw [noTie_cons_dyn (RouteTree.mk (optTerminal idx p T)
                    T.statics (some (k, o, child2))) child2 s k o srest hls2 rfl] at hnt
                  exact hnt
                rw [walkT_cons_dyn (RouteTree.mk (optTerminal idx p T)
                  T.statics (some (k, o, child2))) child2 s k o srest hls2 rfl]
                exact ih child child2 idx srest hrec (andE_right hal) hnt2
              · have hls2 : lookupAssoc (RouteTree.mk (optTerminal idx p T)
                    T.statics (some (k, o, child2))).statics s = some c := hls
                rw [noTie_cons_static_dyn (RouteTree.mk (optTerminal idx p T)
                  T.statics (some (k, o, child2))) c s srest (k, o, child2)
                  hls2 rfl] at hnt
                exact Bool.noConfusion hnt
            · exact Except.noConfusion h
          · exact Except.noConfusion h
        · rename_i hdy
          split at h
          · rename_i child2 hrec
            injection h with h2
            subst h2
            rcases hls : lookupAssoc T.statics s with _ | c
            · have hls2 : lookupAssoc (RouteTree.mk (optTerminal idx p T) T.statics
                  (some (dynKey p, endsWithQm p, child2))).statics s = none := hls
              have hnt2 : noTie child2 srest = true := by
                rw [noTie_cons_dyn (RouteTree.mk (optTerminal idx p T) T.statics
                  (some (dynKey p, endsWithQm p, child2))) child2 s (dynKey p)
                  (endsWithQm p) srest hls2 rfl] at hnt
                exact hnt
              rw [walkT_cons_dyn (RouteTree.mk (optTerminal idx p T) T.statics
                (some (dynKey p, endsWithQm p, child2))) child2 s (dynKey p)
                (endsWithQm p) srest hls2 rfl]
              exact ih emptyTree child2 idx srest hrec (andE_right hal) hnt2
            · have hls2 : lookupAssoc (RouteTree.mk (optTerminal idx p T) T.statics
                  (some (dynKey p, endsWithQm p, child2))).statics s = some c := hls
              rw [noTie_cons_static_dyn (RouteTree.mk (optTerminal idx p T) T.statics
                (some (dynKey p, endsWithQm p, child2))) c s srest
                (dynKey p, endsWithQm p, child2) hls2 rfl] at hnt
              exact Bool.noConfusion hnt
          · exact Except.noConfusion h
      · rw [if_neg hc] at h
        split at h
        · rename_i child2 hrec
          injection h with h2
          subst h2
          have hc2 : startsWithColon p = false := by
            cases hx : startsWithColon p
            · rfl
            · exact absurd hx hc
          rw [hc2, Bool.false_or] at hal
          have hps : p = s := of_decide_eq_true (andE_left hal)
          subst hps
          have hls2 : lookupAssoc (RouteTree.mk T.terminal
              (setAssoc T.statics p child2) T.dyn).statics p = some child2 :=
            lookupAssoc_setAssoc_self T.statics p child2
          rcases hdy : T.dyn with _ | x
          · have hdy2 : (RouteTree.mk T.terminal
                (setAssoc T.statics p child2) T.dyn).dyn = none := hdy
            have hnt2 : noTie child2 srest = true := by
              rw [noTie_cons_static (RouteTree.mk T.terminal
                (setAssoc T.statics p child2) T.dyn) child2 p srest hls2 hdy2] at hnt
              exact hnt
            rw [walkT_cons_static (RouteTree.mk T.terminal
              (setAssoc T.statics p child2) none) child2 p srest hls2]
            exact ih ((lookupAssoc T.statics p).getD emptyTree) child2 idx srest
              hrec (andE_right hal) hnt2
          · have hdy2 : (RouteTree.mk T.terminal
                (setAssoc T.statics p child2) T.dyn).dyn = some x := hdy
            rw [noTie_cons_static_dyn (RouteTree.mk T.terminal
              (setAssoc T.statics p child2) T.dyn) child2 p srest x hls2 hdy2] at hnt
            exact Bool.noConfusion hnt
        · exact Except.noConfusion h

/-- Tie-freedom propagates backwards through an insertion: an insertion only
adds edges, so a tie-free walk of the new tree gives a tie-free walk of the
old one. -/
theorem noTie_insert_back :
    ∀ (parts : List String) (T T' : RouteTree) (idx : Nat) (segs : List String),
      addRouteGo idx parts T = .ok T' → noTie T' segs = true →
      noTie T segs = true := by
  intro parts
  induction parts with
  | nil =>
    intro T T' idx segs h hnt
    unfold addRouteGo at h
    split at h
    · rename_i j hterm
      split at h
      · injection h with h2
        subst h2
        rw [noTie_withTerminal] at hnt
        exact hnt
      · exact Except.noConfusion h
    · injection h with h2
      subst h2
      rw [noTie_withTerminal] at hnt
      exact hnt
  | cons p prest ih =>
    intro T T' idx segs h hnt
    cases segs with
    | nil => rfl
    | cons s srest =>
      unfold addRouteGo at h
      by_cases hc : startsWithColon p = true
      · rw [if_pos hc] at h
        split at h
        · rename_i k o child hdy
          split at h
          · split at h
            · rename_i child2 hrec
              injection h with h2
              subst h2
              rcases hls : lookupAssoc T.statics s with _ | c
              · have hls2 : lookupAssoc (RouteTree.mk (optTerminal idx p T)
                    T.statics (some (k, o, child2))).statics s = none := hls
                rw [noTie_cons_dyn (RouteTree.mk (optTerminal idx p T)
                  T.statics (some (k, o, child2))) child2 s k o srest hls2 rfl] at hnt
                rw [noTie_cons_dyn T child s k o srest hls hdy]
                exact ih child child2 idx srest hrec hnt
              · have hls2 : lookupAssoc (RouteTree.mk (optTerminal idx p T)
                    T.statics (some (k, o, child2))).statics s = some c := hls
                rw [noTie_cons_static_dyn (RouteTree.mk (optTerminal idx p T)
                  T.statics (some (k, o, child2))) c s srest (k, o, child2)
                  hls2 rfl] at hnt
                exact Bool.noConfusion hnt
            · exact Except.noConfusion h
          · exact Except.noConfusion h
        · rename_i hdy
          split at h
          · rename_i child2 hrec
            injection h with h2
            subst h2
            rcases hls : lookupAssoc T.statics s with _ | c
            · exact noTie_cons_none T s srest hls hdy
            · have hls2 : lookupAssoc (RouteTree.mk (optTerminal idx p T) T.statics
                  (some (dynKey p, endsWithQm p, child2))).statics s = some c := hls
              rw [noTie_cons_static_dyn (RouteTree.mk (optTerminal idx p T) T.statics
                (some (dynKey p, endsWithQm p, child2))) c s srest
                (dynKey p, endsWithQm p, child2) hls2 rfl] at hnt
              exact Bool.noConfusion hnt
          · exact Except.noConfusion h
      · rw [if_neg hc] at h
        split at h
        · rename_i child2 hrec
          injection h with h2
          subst h2
          by_cases hsp : p = s
          · subst hsp
            have hls2 : lookupAssoc (RouteTree.mk T.terminal
                (setAssoc T.statics p child2) T.dyn).statics p = some child2 :=
              lookupAssoc_setAssoc_self T.statics p child2
            rcases hdy : T.dyn with _ | x
            · have hdy2 : (RouteTree.mk T.terminal
                  (setAssoc T.statics p child2) T.dyn).dyn = none := hdy
              rw [noTie_cons_static (RouteTree.mk T.terminal
                (setAssoc T.statics p child2) T.dyn) child2 p srest hls2 hdy2] at hnt
              rcases hls : lookupAssoc T.statics p with _ | c
              · exact noTie_cons_none T p srest hls hdy
              · rw [noTie_cons_static T c p srest hls hdy]
                have hrec2 : addRouteGo idx prest c = .ok child2 := by
                  rw [hls] at hrec
                  exact hrec
                exact ih c child2 idx srest hrec2 hnt
            · have hdy2 : (RouteTree.mk T.terminal
                  (setAssoc T.statics p child2) T.dyn).dyn = some x := hdy
              rw [noTie_cons_static_dyn (RouteTree.mk T.terminal
                (setAssoc T.statics p child2) T.dyn) child2 p srest x hls2 hdy2] at hnt
              exact Bool.noConfusion hnt
          · have hlseq : lookupAssoc (setAssoc T.statics p child2) s =
                lookupAssoc T.statics s :=
              lookupAssoc_setAssoc_ne T.statics p s child2 (fun he => hsp he.symm)
            rcases hls : lookupAssoc T.statics s with _ | c
            · rcases hdy : T.dyn with _ | x
              · exact noTie_cons_none T s srest hls hdy
              · obtain ⟨k, o, child⟩ := x
                have hls2 : lookupAssoc (RouteTree.mk T.terminal
                    (setAssoc T.statics p child2) T.dyn).statics s = none := by
                  show lookupAssoc (setAssoc T.statics p child2) s = none
                  rw [hlseq, hls]
                have hdy2 : (RouteTree.mk T.terminal
                    (setAssoc T.statics p child2) T.dyn).dyn = some (k, o, child) := hdy
                rw [noTie_cons_dyn (RouteTree.mk T.terminal
                  (setAssoc T.statics p child2) T.dyn) child s k o srest
                  hls2 hdy2] at hnt
                rw [noTie_cons_dyn T child s k o srest hls hdy]
                exact hnt
            · have hls2 : lookupAssoc (RouteTree.mk T.terminal
                  (setAssoc T.statics p child2) T.dyn).statics s = some c := by
                show lookupAssoc (setAssoc T.statics p child2) s = some c
                rw [hlseq, hls]
              rcases hdy : T.dyn with _ | x
              · have hdy2 : (RouteTree.mk T.terminal
                    (setAssoc T.statics p child2) T.dyn).dyn = none := hdy
                rw [noTie_cons_static (RouteTree.mk T.terminal
                  (setAssoc T.statics p child2) T.dyn) c s srest hls2 hdy2] at hnt
                rw [noTie_cons_static T c s srest hls hdy]
                exact hnt
              · have hdy2 : (RouteTree.mk T.terminal
                    (setAssoc T.statics p child2) T.dyn).dyn = some x := hdy
                rw [noTie_cons_static_dyn (RouteTree.mk T.terminal
                  (setAssoc T.statics p child2) T.dyn) c s srest x hls2 hdy2] at hnt
                exact Bool.noConfusion hnt
        · exact Except.noConfusion h

/-- An insertion preserves an existing walk result along a walk that is
tie-free in the new tree: the insertion never redirects such a walk, and it
cannot re-claim a node already claimed (that would be a construction
conflict). -/
theorem insert_preserve :
    ∀ (parts : List String) (T T' : RouteTree) (idx : Nat) (segs : List String)
      (i : Nat),
      addRouteGo idx parts T = .ok T' → noTie T' segs = true →
      walkT T segs = some i → walkT T' segs = some i := by
  intro parts
  induction parts with
  | nil =>
    intro T T' idx segs i h hnt hw
    cases segs with
    | nil =>
      rw [walkT_nil] at hw
      rw [walkT_nil]
      unfold addRouteGo at h
      split at h
      · rename_i j hterm
        split at h
        · rename_i hj
          injection h with h2
          subst h2
          rw [withTerminal_terminal]
          rw [hterm] at hw
          rw [← hj]
          exact hw
        · exact Except.noConfusion h
      · rename_i hterm
        rw [hterm] at hw
        exact Option.noConfusion hw
    | cons s srest =>
      unfold addRouteGo at h
      split at h
      · rename_i j hterm
        split at h
        · injection h with h2
          subst h2
          rw [walkT_withTerminal_cons]
          exact hw
        · exact Except.noConfusion h
      · injection h with h2
        subst h2
        rw [walkT_withTerminal_cons]
        exact hw
  | cons p prest ih =>
    intro T T' idx segs i h hnt hw
    cases segs with
    | nil =>
      rw [walkT_nil] at hw
      rw [walkT_nil]
      have hcond : ¬(endsWithQm p = true ∧ T.terminal = none) := by
        intro hcond2
        rw [hw] at hcond2
        exact Option.noConfusion hcond2.2
      unfold addRouteGo at h
      by_cases hc : startsWithColon p = true
      · rw [if_pos hc] at h
        split at h
        · rename_i k o child hdy
          split at h
          · split at h
            · rename_i child2 hrec
              injection h with h2
              subst h2
              show optTerminal idx p T = some i
              unfold optTerminal
              rw [if_neg hcond]
              exact hw
            · exact Except.noConfusion h
          · exact Except.noConfusion h
        · rename_i hdy
          split at h
          · rename_i child2 hrec
            injection h with h2
            subst h2
            show optTerminal idx p T = some i
            unfold optTerminal
            rw [if_neg hcond]
            exact hw
          · exact Except.noConfusion h
      · rw [if_neg hc] at h
        split at h
        · rename_i child2 hrec
          injection h with h2
          subst h2
          show T.terminal = some i
          exact hw
        · exact Except.noConfusion h
    | cons s srest =>
      unfold addRouteGo at h
      by_cases hc : startsWithColon p = true
      · rw [if_pos hc] at h
        split at h
        · rename_i k o child hdy
          split at h
          · split at h
            · rename_i child2 hrec
              injection h with h2
              subst h2
              rcases hls : lookupAssoc T.statics s with _ | c
              · have hls2 : lookupAssoc (RouteTree.mk (optTerminal idx p T)
                    T.statics (some (k, o, child2))).statics s = none := hls
                have hnt2 : noTie child2 srest = true := by
                  rw [noTie_cons_dyn (RouteTree.mk (optTerminal idx p T)
                    T.statics (some (k, o, child2))) child2 s k o srest hls2 rfl] at hnt
                  exact hnt
                rw [walkT_cons_dyn (RouteTree.mk (optTerminal idx p T)
                  T.statics (some (k, o, child2))) child2 s k o srest hls2 rfl]
                rw [walkT_cons_dyn T child s k o srest hls hdy] at hw
                exact ih child child2 idx srest i hrec hnt2 hw
              · have hls2 : lookupAssoc (RouteTree.mk (optTerminal idx p T)
                    T.statics (some (k, o, child2))).statics s = some c := hls
                rw [noTie_cons_static_dyn (RouteTree.mk (optTerminal idx p T)
                  T.statics (some (k, o, child2))) c s srest (k, o, child2)
                  hls2 rfl] at hnt
                exact Bool.noConfusion hnt
            · exact Except.noConfusion h
          · exact Except.noConfusion h
        · rename_i hdy
          split at h
          · rename_i child2 hrec
            injection h with h2
            subst h2
            rcases hls : lookupAssoc T.statics s with _ | c
            · rw [walkT_cons_none T s srest hls hdy] at hw
              exact Option.noConfusion hw
            · have hls2 : lookupAssoc (RouteTree.mk (optTerminal idx p T) T.statics
                  (some (dynKey p, endsWithQm p, child2))).statics s = some c := hls
              rw [noTie_cons_static_dyn (RouteTree.mk (optTerminal idx p T) T.statics
                (some (dynKey p, endsWithQm p, child2))) c s srest
                (dynKey p, endsWithQm p, child2) hls2 rfl] at hnt
              exact Bool.noConfusion hnt
          · exact Except.noConfusion h
      · rw [if_neg hc] at h
        split at h
        · rename_i child2 hrec
          injection h with h2
          subst h2
          by_cases hsp : p = s
          · subst hsp
            have hls2 : lookupAssoc (RouteTree.mk T.terminal
                (setAssoc T.statics p child2) T.dyn).statics p = some child2 :=
              lookupAssoc_setAssoc_self T.statics p child2
            rcases hdy : T.dyn with _ | x
            · have hdy2 : (RouteTree.mk T.terminal
                  (setAssoc T.statics p child2) T.dyn).dyn = none := hdy
              have hnt2 : noTie child2 srest = true := by
                rw [noTie_cons_static (RouteTree.mk T.terminal
                  (setAssoc T.statics p child2) T.dyn) child2 p srest hls2 hdy2] at hnt
                exact hnt
              rw [walkT_cons_static (RouteTree.mk T.terminal
                (setAssoc T.statics p child2) none) child2 p srest hls2]
              rcases hls : lookupAssoc T.statics p with _ | c
              · rw [walkT_cons_none T p srest hls hdy] at hw
                exact Option.noConfusion hw
              · rw [walkT_cons_static T c p srest hls] at hw
                have hrec2 : addRouteGo idx prest c = .ok child2 := by
                  rw [hls] at hrec
                  exact hrec
                exact ih c child2 idx srest i hrec2 hnt2 hw
            · have hdy2 : (RouteTree.mk T.terminal
                  (setAssoc T.statics p child2) T.dyn).dyn = some x := hdy
              rw [noTie_cons_static_dyn (RouteTree.mk T.terminal
                (setAssoc T.statics p child2) T.dyn) child2 p srest x hls2 hdy2] at hnt
              exact Bool.noConfusion hnt
          · have hlseq : lookupAssoc (setAssoc T.statics p child2) s =
                lookupAssoc T.statics s :=
              lookupAssoc_setAssoc_ne T.statics p s child2 (fun he => hsp he.symm)
            rcases hls : lookupAssoc T.statics s with _ | c
            · have hls2 : lookupAssoc (RouteTree.mk T.terminal
                  (setAssoc T.statics p child2) T.dyn).statics s = none := by
                show lookupAssoc (setAssoc T.statics p child2) s = none
                rw [hlseq, hls]
              rcases hdy : T.dyn with _ | x
              · rw [walkT_cons_none T s srest hls hdy] at hw
                exact Option.noConfusion hw
              · obtain ⟨k, o, child⟩ := x
                have hdy2 : (RouteTree.mk T.terminal
                    (setAssoc T.statics p child2) T.dyn).dyn = some (k, o, child) := hdy
                rw [walkT_cons_dyn (RouteTree.mk T.terminal
                  (setAssoc T.statics p child2) (some (k, o, child))) child s k o
                  srest hls2 rfl]
                rw [walkT_cons_dyn T child s k o srest hls hdy] at hw
                exact hw
            · have hls2 : lookupAssoc (RouteTree.mk T.terminal
                  (setAssoc T.statics p child2) T.dyn).statics s = some c := by
                show lookupAssoc (setAssoc T.statics p child2) s = some c
                rw [hlseq, hls]
              rw [walkT_cons_static (RouteTree.mk T.terminal
                (setAssoc T.statics p child2) T.dyn) c s srest hls2]
              rw [walkT_cons_static T c s srest hls] at hw
              exact hw
        · exact Except.noConfusion h

/-- Tie-freedom propagates backwards through the whole construction loop. -/
theorem buildGo_noTie_back :
    ∀ (pats : List String) (k : Nat) (T tree : RouteTree) (segs : List String),
      buildTreeGo k pats T = .ok tree → noTie tree segs = true →
      noTie T segs = true := by
  intro pats
  induction pats with
  | nil =>
    intro k T tree segs h hnt
    unfold buildTreeGo at h
    injection h with h2
    subst h2
    exact hnt
  | cons path0 prest ih =>
    intro k T tree segs h hnt
    unfold buildTreeGo at h
    split at h
    · rename_i T2 hadd
      have hnt2 := ih (k + 1) T2 tree segs h hnt
      unfold addRouteToTree at hadd
      exact noTie_insert_back (splitFilter path0) T T2 k segs hadd hnt2
    · exact Except.noConfusion h

/-- Self-walk through the construction loop: a walk result survives the
remaining insertions, and a path aligned with the pattern inserted at
position `m` walks to index `k + m`. -/
theorem buildGo_selfWalk :
    ∀ (pats : List String) (k : Nat) (T tree : RouteTree) (segs : List String),
      buildTreeGo k pats T = .ok tree → noTie tree segs = true →
      (∀ i, walkT T segs = some i → walkT tree segs = some i) ∧
      (∀ (m : Nat) (path : String), pats.get? m = some path →
        aligned (splitFilter path) segs = true → walkT tree segs = some (k + m)) := by
  intro pats
  induction pats with
  | nil =>
    intro k T tree segs h hnt
    unfold buildTreeGo at h
    injection h with h2
    subst h2
    constructor
    · intro i hw
      exact hw
    · intro m path hm
      exact absurd hm (by intro hx; exact Option.noConfusion hx)
  | cons path0 prest ih =>
    intro k T tree segs h hnt
    unfold buildTreeGo at h
    split at h
    · rename_i T2 hadd
      unfold addRouteToTree at hadd
      have hntT2 : noTie T2 segs = true := buildGo_noTie_back prest (k + 1) T2 tree segs h hnt
      obtain ⟨ihpres, ihself⟩ := ih (k + 1) T2 tree segs h hnt
      constructor
      · intro i hw
        have hw2 : walkT T2 segs = some i :=
          insert_preserve (splitFilter path0) T T2 k segs i hadd hntT2 hw
        exact ihpres i hw2
      · intro m path hm hal
        cases m with
        | zero =>
          have hpe : path0 = path := Option.some.inj hm
          have hw2 : walkT T2 segs = some k := by
            apply insert_selfWalk (splitFilter path0) T T2 k segs hadd ?_ hntT2
            rw [hpe]
            exact hal
          have hw3 := ihpres k hw2
          rw [Nat.add_zero]
          exact hw3
        | succ m2 =>
          have hm2 : prest.get? m2 = some path := hm
          have hw3 := ihself m2 path hm2 hal
          have harith : k + 1 + m2 = k + (m2 + 1) := by omega
          rw [harith] at hw3
          exact hw3
    · exact Except.noConfusion h

/-- A non-root pattern inserted by the construction never has an empty
segment list: the root is already claimed by the first route, so such an
insertion would be a route conflict. -/
theorem buildGo_no_nil_pattern :
    ∀ (pats : List String) (k : Nat) (T tree : RouteTree),
      buildTreeGo k pats T = .ok tree → T.terminal = some 0 → 0 < k →
      ∀ (m : Nat) (path : String), pats.get? m = some path →
        splitFilter path ≠ [] := by
  intro pats
  induction pats with
  | nil =>
    intro k T tree h ht hk m path hm
    exact Option.noConfusion hm
  | cons path0 prest ih =>
    intro k T tree h ht hk m path hm hnil
    unfold buildTreeGo at h
    split at h
    · rename_i T2 hadd
      unfold addRouteToTree at hadd
      cases m with
      | zero =>
        have hpe : path0 = path := Option.some.inj hm
        rw [hpe, hnil] at hadd
        unfold addRouteGo at hadd
        split at hadd
        · rename_i j hterm
          split at hadd
          · rename_i hj
            rw [ht] at hterm
            have hj0 : (0 : Nat) = j := Option.some.inj hterm
            rw [hj] at hj0
            exact hk.ne' hj0.symm
          · exact Except.noConfusion hadd
        · rename_i hterm
          rw [ht] at hterm
          exact Option.noConfusion hterm
      | succ m2 =>
        have hT2 : T2.terminal = some 0 :=
          addRouteGo_terminal k (splitFilter path0) T T2 0 hadd ht
        have hm2 : prest.get? m2 = some path := hm
        exact ih (k + 1) T2 tree h hT2 (Nat.succ_pos k) m2 path hm2 hnil
    · exact Except.noConfusion h

/-- In a constructed tree, only the first (root) pattern has an empty
segment list. -/
theorem buildTree_no_nil_rest (pats : List String) (tree : RouteTree)
    (h : buildTree pats = .ok tree) (m : Nat) (path : String)
    (hm : pats.get? m = some path) (hnil : splitFilter path = []) : m = 0 := by
  unfold buildTree at h
  split at h
  · exact Except.noConfusion h
  · rename_i first rest
    split at h
    · cases m with
      | zero => rfl
      | succ m2 =>
        have hm2 : rest.get? m2 = some path := hm
        exact absurd hnil (buildGo_no_nil_pattern rest 1 (RouteTree.mk (some 0) [] none)
          tree h rfl (Nat.succ_pos 0) m2 path hm2)
    · exact Except.noConfusion h

/-- Self-walk of a constructed tree: on a non-empty path aligned with the
pattern registered at index `m`, and tie-free in the tree, the walk ends on
index `m`. -/
theorem buildTree_selfWalk (pats : List String) (tree : RouteTree)
    (segs : List String) (h : buildTree pats = .ok tree)
    (hnt : noTie tree segs = true) (m : Nat) (path : String)
    (hm : pats.get? m = some path) (hal : aligned (splitFilter path) segs = true)
    (hne : segs ≠ []) : walkT tree segs = some m := by
  unfold buildTree at h
  split at h
  · exact Except.noConfusion h
  · rename_i first rest
    split at h
    · rename_i hfirst
      cases m with
      | zero =>
        have hpe : first = path := Option.some.inj hm
        have hsf0 : splitFilter path = [] := by
          rw [← hpe, hfirst]
          decide
        rw [hsf0] at hal
        cases segs with
        | nil => exact absurd rfl hne
        | cons s srest => exact Bool.noConfusion hal
      | succ m2 =>
        have hm2 : rest.get? m2 = some path := hm
        have hw3 := (buildGo_selfWalk rest 1 (RouteTree.mk (some 0) [] none)
          tree segs h hnt).2 m2 path hm2 hal
        have harith : 1 + m2 = m2 + 1 := by omega
        rw [harith] at hw3
        exact hw3
    · exact Except.noConfusion h

/-- On a constructed router, resolving `"/"` returns the first route's
metadata with empty parameters. -/
theorem find_root {M : Type u} (routes : List (Route M)) (tree : RouteTree)
    (hterm : tree.terminal = some 0) (route0 : Route M) (rrest : List (Route M))
    (hr : routes = route0 :: rrest) :
    ((Router.mk routes tree [] : Router M).find "/").1 = some (route0.factory []) := by
  subst hr
  unfold Router.find
  rw [show lookupAssoc ([] : List (String × M)) "/" = none from rfl]
  rw [if_pos rfl]
  rw [show (Router.mk (route0 :: rrest) tree ([] : List (String × M))).tree = tree
    from rfl, hterm]
  rfl

/-! ## Claim theorems -/

/-- C2 (counterexample): with routes `{"/", "/users/:id"}`, `Resolve("/users/")`
does not fail with NoMatch as the claim states: the trailing empty segment is
consumed by the dynamic child and, because `findParams` filters empty pathname
segments, the lookup succeeds with `id` bound to `undefined`. -/
theorem c2_counterexample :
    resolveList usersRoutes "/users/" = some [("id", none)] := by decide

/-- C2 (amended): for the registered route `/users/:id`, `Resolve("/users/42")`
extracts `{id: "42"}` and `Resolve("/users")` fails with NoMatch, but
`Resolve("/users/")` succeeds with `{id: undefined}` instead of failing. -/
theorem c2_amended_required_param :
    (buildTree ["/", "/users/:id"]).isOk = true ∧
    resolveList usersRoutes "/users/42" = some [("id", some "42")] ∧
    resolveList usersRoutes "/users" = none ∧
    resolveList usersRoutes "/users/" = some [("id", none)] := by decide

/-- C3: the linear matcher evaluates patterns in registration order and
returns the first match: for `["/users/:id", "/users/me"]` and path
`/users/me` it returns the first pattern with `id = "me"`, although the
later exact-literal pattern also matches the path. -/
theorem c3_linear_first_match :
    MatchRoute [⟨"/users/:id", []⟩, ⟨"/users/me", []⟩] "/users/me" =
      some (⟨"/users/:id", []⟩, [("id", "me")]) ∧
    MatchPattern "/users/me" "/users/me" = some [] := by decide

/-- C5: for the registered route `/posts/:id?`, `Resolve("/posts")` succeeds
with `{id: undefined}` and `Resolve("/posts/7")` succeeds with `{id: "7"}`. -/
theorem c5_optional_param :
    (buildTree ["/", "/posts/:id?"]).isOk = true ∧
    resolveList postsRoutes "/posts" = some [("id", none)] ∧
    resolveList postsRoutes "/posts/7" = some [("id", some "7")] := by decide

/-- C7: param substitution replaces `:id` by plain substring replacement
(`":id-comments"` with `{id: "42"}` becomes `"42-comments"`, not flagged),
and a value whose token has no extracted parameter keeps its colon and is
flagged unresolved by `HasUnsubstitutedParam`. -/
theorem c7_substitution :
    SubstituteParams (some [("v", ":id-comments")]) [("id", "42")] =
      some [("v", "42-comments")] ∧
    HasUnsubstitutedParam
      (SubstituteParams (some [("v", ":id-comments")]) [("id", "42")]) = false ∧
    SubstituteParams (some [("v", ":missing")]) [("id", "42")] =
      some [("v", ":missing")] ∧
    HasUnsubstitutedParam
      (SubstituteParams (some [("v", ":missing")]) [("id", "42")]) = true := by
  decide

/-- C10: with routes `{"/", "/a/:x", "/a/b/c"}`, the trie commits to the
static edge `b` and never backtracks into the dynamic child: `Resolve("/a/b")`
fails with NoMatch even though the pattern `/a/:x` matches the path. -/
theorem c10_static_commit :
    (buildTree ["/", "/a/:x", "/a/b/c"]).isOk = true ∧
    resolveList abRoutes "/a/b" = none ∧
    MatchPattern "/a/:x" "/a/b" = some [("x", "b")] := by decide

/-- C6: when the emission loop of `Router.url` reaches an optional dynamic
segment `:name?` whose looked-up value is falsy, it returns the URL built
from the segments emitted so far — neither that parameter nor anything after
it (`post`, which may contain required segments) appears; when it reaches a
required dynamic segment `:name` with a falsy value, it throws the
missing-parameter error naming the parameter and the route. -/
theorem c6_optional_stops_required_throws
    (routePath name : String) (post : List String)
    (ps : List (String × String)) (acc : List String)
    (h1 : truthyStr (lookupAssoc ps name) = false)
    (h2 : endsWithQm (":" ++ name) = false) :
    urlGo routePath ps ((":" ++ name ++ "?") :: post) acc =
      .ok ("/" ++ joinSlash acc) ∧
    urlGo routePath ps ((":" ++ name) :: post) acc =
      .error (.missingParam name routePath) := by
  have hd1 : (":" ++ name ++ "?").data = (':' :: name.data) ++ ['?'] := by
    rw [String.data_append, String.data_append]; rfl
  have hd2 : (":" ++ name).data = ':' :: name.data := by
    rw [String.data_append]; rfl
  have hsc1 : startsWithColon (":" ++ name ++ "?") = true := by
    unfold startsWithColon; rw [hd1, List.cons_append]; simp
  have hsc2 : startsWithColon (":" ++ name) = true := by
    unfold startsWithColon; rw [hd2]; simp
  have hq1 : endsWithQm (":" ++ name ++ "?") = true := by
    unfold endsWithQm
    rw [hd1, List.getLast?_concat]
    simp
  have hn1 : tsParamName (":" ++ name ++ "?") = name := by
    unfold tsParamName
    rw [if_pos hq1, hd1,
      show List.drop 1 ((':' :: name.data) ++ ['?']) = name.data ++ ['?'] from rfl,
      List.dropLast_concat]
  have hn2 : tsParamName (":" ++ name) = name := by
    unfold tsParamName
    rw [if_neg (by rw [h2]; exact fun hx => Bool.noConfusion hx), hd2,
      show List.drop 1 (':' :: name.data) = name.data from rfl]
  constructor
  · simp only [urlGo, hsc1, if_true, hn1, h1, Bool.false_eq_true, if_false, hq1]
  · simp only [urlGo, hsc2, if_true, hn2, h1, Bool.false_eq_true, if_false, h2]

/-- C6 (witness): with no parameters provided, `urlGo` on `[":id?", "b"]`
truncates to the already-emitted `a` segment, and on `[":id", "b"]` throws
the missing-parameter error for `id` on route `/demo`. -/
theorem c6_witness :
    truthyStr (lookupAssoc [] "id") = false ∧
    endsWithQm (":" ++ "id") = false ∧
    urlGo "/demo" [] ((":" ++ "id" ++ "?") :: ["b"]) ["a"] = .ok ("/" ++ joinSlash ["a"]) ∧
    urlGo "/demo" [] ((":" ++ "id") :: ["b"]) ["a"] =
      .error (.missingParam "id" "/demo") :=
  ⟨by decide, by decide,
   (c6_optional_stops_required_throws "/demo" "id" ["b"] [] ["a"] (by decide) (by decide)).1,
   (c6_optional_stops_required_throws "/demo" "id" ["b"] [] ["a"] (by decide) (by decide)).2⟩

/-- C8: a failed resolution never modifies the metadata cache: whenever
`find` returns no metadata, the cache after the call is the cache before
the call. -/
theorem c8_failed_find_preserves_cache {M : Type u} (r : Router M) (path : String)
    (h : (r.find path).1 = none) : (r.find path).2 = r.metadataCache := by
  revert h
  unfold Router.find
  repeat' split
  all_goals intro h
  all_goals first | rfl | simp at h

/-- C8 (witness): on a router registered with only the root route, a lookup
of an unregistered path fails and leaves the (empty) cache unchanged. -/
theorem c8_witness :
    (rootOnlyRouter.find "/nope").1 = none ∧
    (rootOnlyRouter.find "/nope").2 = rootOnlyRouter.metadataCache :=
  ⟨by decide, c8_failed_find_preserves_cache rootOnlyRouter "/nope" (by decide)⟩

/-- C9: the URL builder treats an empty-string parameter value exactly as an
absent one: removing a parameter bound to `""` never changes the result of
`Router.url`; concretely, a required parameter bound to `""` throws the
missing-required-parameter error and an optional parameter bound to `""`
truncates the URL at that segment. -/
theorem c9_empty_param_as_absent :
    (∀ (M : Type) (r : Router M) (idx : Nat) (ps : List (String × String))
      (name : String), lookupAssoc ps name = some "" →
      Router.url r idx ps = Router.url r idx (eraseAssoc ps name)) ∧
    urlCore "/users/:id" [("id", "")] = .error (.missingParam "id" "/users/:id") ∧
    urlCore "/posts/:id?" [("id", "")] = .ok "/posts" := by
  refine ⟨?_, by decide, by decide⟩
  intro M r idx ps name hlook
  have hcong : ∀ k, normVal (lookupAssoc ps k) =
      normVal (lookupAssoc (eraseAssoc ps name) k) := by
    intro k
    by_cases hk : k = name
    · rw [hk, hlook, lookupAssoc_eraseAssoc_self]
      rfl
    · rw [lookupAssoc_eraseAssoc_ne ps name k hk]
  unfold Router.url
  split
  · exact urlGo_congr _ ps (eraseAssoc ps name) hcong _ _
  · rfl

/-- C9 (witness): on the demo router, building the URL of `/users/:id` with
`{id: ""}` equals building it with no parameters at all, and concretely
throws the missing-parameter error. -/
theorem c9_witness :
    lookupAssoc [("id", "")] "id" = some "" ∧
    Router.url usersUrlRouter 1 [("id", "")] =
      Router.url usersUrlRouter 1 (eraseAssoc [("id", "")] "id") ∧
    Router.url usersUrlRouter 1 [("id", "")] =
      .error (.missingParam "id" "/users/:id") :=
  ⟨by decide,
   c9_empty_param_as_absent.1 Params usersUrlRouter 1 [("id", "")] "id" (by decide),
   by decide⟩

/-- C1 (amended): for a shared pattern set registered on both matchers —
patterns in canonical form (Go and client splitting agree), optional
parameters only in trailing position, distinct parameter names per pattern —
and a canonical path (`mkPath segs`, non-empty slash-free segments) on which
the trie walk meets no static/dynamic tie, the trie lookup and the linear
matcher agree on whether some pattern matches, on which pattern matches, and
on the extracted bindings: the trie binds exactly the linear matcher's
values (as defined values) plus at most the absent trailing optional
parameter bound to `undefined`. -/
theorem c1_amended_trie_linear_agree :
    ∀ (M : Type) (routes : List (Route M)) (r : Router M) (segs : List String),
      buildRouter routes = .ok r →
      (∀ p ∈ routes.map Route.path, SplitPath p = splitFilter p) →
      (∀ p ∈ routes.map Route.path, trailingOptOnly (splitFilter p) = true) →
      (∀ p ∈ routes.map Route.path, distinctList (dynNames (splitFilter p)) = true) →
      (∀ s ∈ segs, validSeg s = true) →
      noTie r.tree segs = true →
      ((r.find (mkPath segs)).1 = none ↔
        MatchRoute (routes.map toSpec) (mkPath segs) = none) ∧
      (∀ spec prms, MatchRoute (routes.map toSpec) (mkPath segs) = some (spec, prms) →
        ∃ i route tail, routes.get? i = some route ∧ route.path = spec.pattern ∧
          findParams route.path (mkPath segs) = liftParams prms ++ tail ∧
          (∀ kv ∈ tail, kv.2 = (none : Option String)) ∧
          (r.find (mkPath segs)).1 = some (route.factory (liftParams prms ++ tail))) := by
  intro M routes r segs hbuild hsplit htrailA hdistA hv hnt
  unfold buildRouter at hbuild
  split at hbuild
  · rename_i tree htree
    cases hbuild
    cases segs with
    | nil =>
      obtain ⟨hhead, hterm⟩ := buildTree_shape (routes.map Route.path) tree htree
      obtain ⟨route0, rrest, hr⟩ : ∃ route0 rrest, routes = route0 :: rrest := by
        cases routes with
        | nil => simp at hhead
        | cons a l => exact ⟨a, l, rfl⟩
      have hpath0 : route0.path = "/" := by
        rw [hr] at hhead
        simpa using hhead
      have hfind : ((Router.mk routes tree [] : Router M).find (mkPath [])).1 =
          some (route0.factory []) := by
        rw [show mkPath ([] : List String) = "/" from rfl]
        exact find_root routes tree hterm route0 rrest hr
      have hmr : MatchRoute (routes.map toSpec) (mkPath []) =
          some (toSpec route0, []) := by
        rw [hr, show mkPath ([] : List String) = "/" from rfl, List.map_cons]
        unfold MatchRoute
        rw [show MatchPattern (toSpec route0).pattern "/" = some [] by
          unfold MatchPattern
          rw [show (toSpec route0).pattern = route0.path from rfl, hpath0]
          rfl]
      constructor
      · constructor
        · intro hf
          rw [hfind] at hf
          cases hf
        · intro hm
          rw [hmr] at hm
          cases hm
      · intro spec prms hm
        rw [hmr] at hm
        have h1 : toSpec route0 = spec := congrArg Prod.fst (Option.some.inj hm)
        have h2 : ([] : List (String × String)) = prms :=
          congrArg Prod.snd (Option.some.inj hm)
        refine ⟨0, route0, [], ?_, ?_, ?_, ?_, ?_⟩
        · rw [hr]
          rfl
        · rw [← h1]
          rfl
        · rw [← h2, hpath0]
          rfl
        · intro kv hkv
          cases hkv
        · rw [← h2]
          exact hfind
    | cons x xrest =>
      have hne : (x :: xrest : List String) ≠ [] := by simp
      have hcanon := find_canonical routes tree (x :: xrest) hv hne
      have hwalk := buildTree_walkT (routes.map Route.path) tree (x :: xrest)
        htree htrailA hnt
      have hwalk2 : walkT tree (x :: xrest) =
          firstMatchFrom 0 (routes.map (fun rt => splitFilter rt.path)) (x :: xrest) := by
        rw [hwalk, List.map_map]
        rfl
      have hbridge := matchRoute_firstMatch (mkPath (x :: xrest)) (x :: xrest)
        (SplitPath_mkPath (x :: xrest) hv) routes 0 hsplit
      rcases hfm : firstMatchFrom 0 (routes.map (fun rt => splitFilter rt.path))
        (x :: xrest) with _ | i
      · have hmrnone := hbridge.1 hfm
        have hfindnone :
            ((Router.mk routes tree [] : Router M).find (mkPath (x :: xrest))).1 = none := by
          rw [hcanon, hwalk2, hfm]
        constructor
        · exact ⟨fun _ => hmrnone, fun _ => hfindnone⟩
        · intro spec prms hm
          rw [hmrnone] at hm
          cases hm
      · obtain ⟨route, prms0, hget0, hmp, hmr⟩ := hbridge.2 i hfm
        rw [Nat.sub_zero] at hget0
        have hmem : route ∈ routes := List.get?_mem hget0
        have hmemp : route.path ∈ routes.map Route.path :=
          List.mem_map_of_mem Route.path hmem
        obtain ⟨tail, htail, htnone⟩ := findParamsGo_of_match (splitFilter route.path)
          (x :: xrest) [] prms0 hmp (htrailA route.path hmemp)
          (hdistA route.path hmemp) (fun n _ => rfl)
        have hfp : findParams route.path (mkPath (x :: xrest)) =
            liftParams prms0 ++ tail := by
          unfold findParams
          rw [splitFilter_mkPath (x :: xrest) hv hne]
          exact htail
        have hfind : ((Router.mk routes tree [] : Router M).find (mkPath (x :: xrest))).1 =
            some (route.factory (liftParams prms0 ++ tail)) := by
          rw [hcanon, hwalk2, hfm]
          show (match routes.get? i with
            | some route2 =>
              some (route2.factory (findParams route2.path (mkPath (x :: xrest))))
            | none => none) = some (route.factory (liftParams prms0 ++ tail))
          rw [hget0]
          show some (route.factory (findParams route.path (mkPath (x :: xrest)))) =
            some (route.factory (liftParams prms0 ++ tail))
          rw [hfp]
        constructor
        · constructor
          · intro hf
            rw [hfind] at hf
            cases hf
          · intro hm
            rw [hmr] at hm
            cases hm
        · intro spec prms hm
          rw [hmr] at hm
          have h1 : toSpec route = spec := congrArg Prod.fst (Option.some.inj hm)
          have h2 : prms0 = prms := congrArg Prod.snd (Option.some.inj hm)
          refine ⟨i, route, tail, hget0, ?_, ?_, htnone, ?_⟩
          · rw [← h1]
            rfl
          · rw [← h2]
            exact hfp
          · rw [← h2]
            exact hfind
  · cases hbuild

/-- C1 (witness): the amended equivalence applied to the pattern set
`{"/", "/users/:id"}` and the canonical path `/users/42`: the linear matcher
picks `/users/:id` with `id = "42"` and the trie resolves to the same route
with the same defined bindings. -/
theorem c1_amended_witness :
    ∃ i route tail, usersRoutes.get? i = some route ∧
      route.path = (RouteSpec.mk "/users/:id" []).pattern ∧
      findParams route.path (mkPath ["users", "42"]) =
        liftParams [("id", "42")] ++ tail ∧
      (∀ kv ∈ tail, kv.2 = (none : Option String)) ∧
      (usersUrlRouter.find (mkPath ["users", "42"])).1 =
        some (route.factory (liftParams [("id", "42")] ++ tail)) :=
  (c1_amended_trie_linear_agree Params usersRoutes usersUrlRouter ["users", "42"]
    rfl (by decide) (by decide) (by decide) (by decide) (by decide)).2
    ⟨"/users/:id", []⟩ [("id", "42")] (by decide)

/-- C1 (counterexample): a shared pattern set `{"/", "/users/:id"}` on which
no tie-break policy is in play, and the path `/users/`: the trie resolves it
(binding `id` to `undefined`) while the linear matcher matches no pattern, so
the two disagree on whether some pattern matches. -/
theorem c1_counterexample :
    (buildTree ["/", "/users/:id"]).isOk = true ∧
    resolveList usersRoutes "/users/" = some [("id", none)] ∧
    MatchRoute [⟨"/", []⟩, ⟨"/users/:id", []⟩] "/users/" = none := by decide

/-- C4 (counterexample): with routes `{"/", "/users/:id", "/users/me"}`,
`BuildUrl` of the route `/users/:id` with `{id: "me"}` yields `/users/me`,
but resolving that URL hits the static edge and returns the metadata of the
route `/users/me` (empty bindings), not `route.factory({id: "me"})`. -/
theorem c4_counterexample :
    (buildTree ["/", "/users/:id", "/users/me"]).isOk = true ∧
    urlCore "/users/:id" [("id", "me")] = .ok "/users/me" ∧
    resolveList shadowRoutes "/users/me" = some [] ∧
    resolveList shadowRoutes "/users/me" ≠
      some ((idRoute "/users/:id").factory [("id", some "me")]) := by decide

/-- C4 (amended): round trip for a registered route whose dynamic parameters
are all provided as truthy, slash-free values: `url` succeeds and emits the
pattern with the values substituted, and — provided the emitted path meets no
static/dynamic tie in the trie — `find` on the built URL returns that same
route's metadata, its parameter object assigning each dynamic parameter name
its provided value. -/
theorem c4_amended_roundtrip :
    ∀ (M : Type) (routes : List (Route M)) (r : Router M) (i : Nat)
      (route : Route M) (ps : List (String × String)),
      buildRouter routes = .ok r →
      routes.get? i = some route →
      (∀ part ∈ splitFilter route.path, startsWithColon part = true →
        providedValid ps part = true) →
      noTie r.tree (emitParts ps (splitFilter route.path)) = true →
      Router.url r i ps = .ok (mkPath (emitParts ps (splitFilter route.path))) ∧
      (r.find (mkPath (emitParts ps (splitFilter route.path)))).1 =
        some (route.factory (assignAll (liftParams
          (dynBindings ps (splitFilter route.path))))) := by
  intro M routes r i route ps hbuild hget hprov hnt
  unfold buildRouter at hbuild
  split at hbuild
  · rename_i tree htree
    cases hbuild
    have htruthy : ∀ part ∈ splitFilter route.path, startsWithColon part = true →
        truthyStr (lookupAssoc ps (tsParamName part)) = true := by
      intro part hp hc
      have hpv := hprov part hp hc
      unfold providedValid at hpv
      rcases hv : lookupAssoc ps (tsParamName part) with _ | v
      · rw [hv] at hpv
        exact Bool.noConfusion hpv
      · rw [hv] at hpv
        exact validSeg_bne v hpv
    have hvseg : ∀ s ∈ emitParts ps (splitFilter route.path), validSeg s = true := by
      intro s hs
      unfold emitParts at hs
      obtain ⟨part, hp, he⟩ := List.mem_map.mp hs
      have he2 : (if startsWithColon part then
          (lookupAssoc ps (tsParamName part)).getD "" else part) = s := he
      by_cases hc : startsWithColon part = true
      · rw [if_pos hc] at he2
        have hpv := hprov part hp hc
        unfold providedValid at hpv
        rcases hv : lookupAssoc ps (tsParamName part) with _ | v
        · rw [hv] at hpv
          exact Bool.noConfusion hpv
        · rw [hv] at hpv
          rw [hv] at he2
          rw [← he2]
          exact hpv
      · rw [if_neg hc] at he2
        rw [← he2]
        exact splitFilter_valid route.path part hp
    have hurl : Router.url (Router.mk routes tree []) i ps =
        .ok (mkPath (emitParts ps (splitFilter route.path))) := by
      show (match routes.get? i with
        | some route2 => urlCore route2.path ps
        | none => .error .notRegistered) =
        .ok (mkPath (emitParts ps (splitFilter route.path)))
      rw [hget]
      show urlCore route.path ps = .ok (mkPath (emitParts ps (splitFilter route.path)))
      unfold urlCore
      rw [urlGo_all_truthy route.path ps (splitFilter route.path) [] htruthy]
      rw [List.nil_append]
      rfl
    rcases hsegs : emitParts ps (splitFilter route.path) with _ | ⟨e, erest⟩
    · have hpnil : splitFilter route.path = [] := by
        cases hps : splitFilter route.path with
        | nil => rfl
        | cons a l =>
          rw [hps] at hsegs
          exact List.noConfusion hsegs
      obtain ⟨hhead, hterm⟩ := buildTree_shape (routes.map Route.path) tree htree
      obtain ⟨route0, rrest, hr⟩ : ∃ route0 rrest, routes = route0 :: rrest := by
        cases routes with
        | nil => simp at hhead
        | cons a l => exact ⟨a, l, rfl⟩
      have hi0 : i = 0 := by
        have hmp : (routes.map Route.path).get? i = some route.path := by
          rw [List.get?_map, hget]
          rfl
        exact buildTree_no_nil_rest (routes.map Route.path) tree htree i
          route.path hmp hpnil
      have hroute0 : route = route0 := by
        rw [hr, hi0] at hget
        exact (Option.some.inj hget).symm
      rw [hsegs] at hurl
      refine ⟨hurl, ?_⟩
      rw [hpnil, hroute0]
      rw [show mkPath ([] : List String) = "/" from rfl]
      rw [show assignAll (liftParams (dynBindings ps [])) = [] from rfl]
      exact find_root routes tree hterm route0 rrest hr
    · rw [hsegs] at hurl hnt
      have hvseg2 : ∀ s ∈ (e :: erest : List String), validSeg s = true := by
        rw [← hsegs]
        exact hvseg
      have hne : (e :: erest : List String) ≠ [] := by simp
      have hcanon := find_canonical routes tree (e :: erest) hvseg2 hne
      have hmp : (routes.map Route.path).get? i = some route.path := by
        rw [List.get?_map, hget]
        rfl
      have hal : aligned (splitFilter route.path) (e :: erest) = true := by
        rw [← hsegs]
        exact aligned_emitParts ps (splitFilter route.path)
      have hwalk3 : walkT tree (e :: erest) = some i :=
        buildTree_selfWalk (routes.map Route.path) tree (e :: erest) htree hnt i
          route.path hmp hal hne
      have hfp : findParams route.path (mkPath (e :: erest)) =
          assignAll (liftParams (dynBindings ps (splitFilter route.path))) := by
        unfold findParams
        rw [splitFilter_mkPath (e :: erest) hvseg2 hne]
        rw [← hsegs]
        rw [findParamsGo_emit_fold ps (splitFilter route.path) []]
        rfl
      refine ⟨hurl, ?_⟩
      rw [hcanon, hwalk3]
      show (match routes.get? i with
        | some route2 =>
          some (route2.factory (findParams route2.path (mkPath (e :: erest))))
        | none => none) =
        some (route.factory (assignAll (liftParams
          (dynBindings ps (splitFilter route.path)))))
      rw [hget]
      show some (route.factory (findParams route.path (mkPath (e :: erest)))) =
        some (route.factory (assignAll (liftParams
          (dynBindings ps (splitFilter route.path)))))
      rw [hfp]
  · cases hbuild

/-- C4 (witness): the amended round trip at routes `{"/", "/users/:id"}`,
the route `/users/:id` (index 1) and parameters `{id: "42"}`: the URL
builder emits `/users/42` and resolving that URL returns the route's
metadata with the binding `id = "42"`. -/
theorem c4_amended_witness :
    buildRouter usersRoutes = .ok usersUrlRouter ∧
    Router.url usersUrlRouter 1 [("id", "42")] =
      .ok (mkPath (emitParts [("id", "42")] (splitFilter "/users/:id"))) ∧
    (usersUrlRouter.find (mkPath (emitParts [("id", "42")]
        (splitFilter "/users/:id")))).1 =
      some ((idRoute "/users/:id").factory
        (assignAll (liftParams
          (dynBindings [("id", "42")] (splitFilter "/users/:id"))))) :=
  have h := c4_amended_roundtrip Params usersRoutes usersUrlRouter 1
    (idRoute "/users/:id") [("id", "42")] rfl rfl (by decide) (by decide)
  ⟨rfl, h.1, h.2⟩

end Gapp
